import Mathlib

/-!
# Verification of the GoDebug trace-index core

A shallow embedding, in Lean 4, of the trace-index core of the editor's
godebug support (`GoDebugInstance`, `GDDataIndex`, `GDFileMsgs` and the
ingestion loop).  Go slices become `List`s, Go `int`s become `Int`
(arrival indices and cursors; overflow of 64-bit counters is not reached
by these operations) or `Nat` (lengths and dense array indices), Go maps
become association lists with overwrite-on-insert, and fallible code
returns an explicit error component.  Go run-time panics (index out of
range, nil-pointer dereference) are modelled as distinguished error
values.  The lazy one-time caches on an event record (`itemBytes`,
`cachedAnn`) are modelled by computing the cached value directly: the
cache fill is observationally pure.
-/

/-- The value-stringification collaborator `godebug.StringifyItem` is outside
the sources of this core.  Modelled from the spec: stringification of an
instrumented expression is "an opaque pure function producing display bytes",
so the opaque payload of an event is carried as its already-stringified
display string and stringification is the identity on it. -/
def stringifyItem (s : String) : String := s

/-- One event message from the instrumented program (`debug.LineMsg`).
The `debug` wire package is outside the sources; its fields are taken from
how the core reads them: a file index, a per-file line ("debug") index, a
source byte offset and an opaque payload. -/
structure LineMsg where
  FileIndex : Nat
  DebugIndex : Nat
  Offset : Int
  Item : String
deriving Repr, DecidableEq, Inhabited

/-- Per-file metadata descriptor (`debug.AnnotatorFileData`): file index,
filename, recorded size and content hash at run start, and the number of
declared line slots (`DebugLen`). -/
structure AnnotatorFileData where
  FileIndex : Nat
  Filename : String
  FileSize : Int
  FileHash : List Nat
  DebugLen : Nat
deriving Repr, DecidableEq, Inhabited

/-- A rendering-ready display entry (`drawer4.Annotation`): source byte
offset plus display bytes. -/
structure Ann where
  Offset : Int
  Bytes : String
deriving Repr, DecidableEq, Inhabited

/-- One stored event (`GDLineMsg`): its global arrival index and the raw
message.  The Go struct also carries the lazy caches `itemBytes` and
`cachedAnn`; they are modelled by direct computation in `fullAnn` /
`emptyAnn`. -/
structure GDLineMsg where
  arrivalIndex : Int
  dbgLineMsg : LineMsg
deriving Repr, DecidableEq, Inhabited

/-- `GDLineMsg.annotation` in the source: the event's display entry
(offset plus stringified payload). -/
def GDLineMsg.fullAnn (msg : GDLineMsg) : Ann :=
  ⟨msg.dbgLineMsg.Offset, stringifyItem msg.dbgLineMsg.Item⟩

/-- `GDLineMsg.emptyAnnotation` in the source: the placeholder display
entry (offset plus a single blank). -/
def GDLineMsg.emptyAnn (msg : GDLineMsg) : Ann :=
  ⟨msg.dbgLineMsg.Offset, " "⟩

/-- A line slot (`GDLineMsgs`): the ordered list of events for one line. -/
structure GDLineMsgs where
  lineMsgs : List GDLineMsg
deriving Repr, DecidableEq, Inhabited

/-- A file record (`GDFileMsgs`): line slots plus the two parallel
per-line caches (currently displayed entry; currently displayed local
event index, with Go's `nil` entry as `none`). -/
structure GDFileMsgs where
  LinesMsgs : List GDLineMsgs
  AnnEntries : List (Option Ann)
  AnnEntriesLMIndex : List Int
deriving Repr, DecidableEq, Inhabited

/-- `NewGDFileMsgs`: a fresh file record with `n` empty line slots
(`make` zero-fills: entries `nil`, local indices `0`). -/
def NewGDFileMsgs (n : Nat) : GDFileMsgs :=
  ⟨List.replicate n ⟨[]⟩, List.replicate n none, List.replicate n 0⟩

/-- The selection sub-record of `GDDataIndex`. -/
structure GDSelected where
  arrivalIndex : Int
  fileIndex : Nat
  lineIndex : Nat
  lineStepIndex : Nat
  edited : Bool
deriving Repr, DecidableEq, Inhabited

/-- The trace index (`GDDataIndex`).  `Files` entries are `Option` because
Go allocates a slice of nil pointers and fills it; a `none` survives only
a metadata message that failed validation part-way.  The
`fsCaseInsensitive` flag stands for `ed.FsCaseInsensitive` on the owning
editor. -/
structure GDDataIndex where
  fsCaseInsensitive : Bool
  filesIndexM : List (String × Nat)
  lastArrivalIndex : Int
  selected : GDSelected
  Afds : List AnnotatorFileData
  Files : List (Option GDFileMsgs)
deriving Repr, DecidableEq, Inhabited

/-- Go map lookup on the filename map. -/
def mapLookup (m : List (String × Nat)) (k : String) : Option Nat :=
  (m.find? (fun p => p.1 == k)).map (fun p => p.2)

/-- Go map insert (overwrite-on-insert) on the filename map. -/
def mapInsert (m : List (String × Nat)) (k : String) (v : Nat) : List (String × Nat) :=
  (k, v) :: m.filter (fun p => p.1 != k)

/-- `GDDataIndex.FilesIndexKey`. -/
def GDDataIndex.FilesIndexKey (di : GDDataIndex) (name : String) : String :=
  if di.fsCaseInsensitive then name.toLower else name

/-- `GDDataIndex.FilesIndex`. -/
def GDDataIndex.FilesIndex (di : GDDataIndex) (name : String) : Option Nat :=
  mapLookup di.filesIndexM (di.FilesIndexKey name)

/-- Errors of the core.  The first three are the returned `fmt.Errorf`
values; the last two model Go run-time panics (slice index out of range,
nil-pointer dereference), which crash rather than return. -/
inductive GoError where
  | badFileIndexAtInit (idx len : Nat)
  | badFileIndex (idx len : Nat)
  | badDebugIndex (idx len : Nat)
  | unhandledString (s : String)
  | errMsg (s : String)
  | sliceOutOfRange
  | nilPointerDeref
deriving Repr, DecidableEq, Inhabited

/-- The `for _, f := range di.Files` loop of `clearMsgs`: every entry is
replaced by a fresh record with the same slot count (`n :=
len(f.LinesMsgs); u := NewGDFileMsgs(n); *f = *u`).  On a nil entry both
`len(f.LinesMsgs)` and `*f = *u` dereference a nil pointer — a Go
run-time panic, modelled as `.error .nilPointerDeref`.  Nil entries are
reachable: a metadata message with duplicate file indices succeeds while
leaving unwritten holes, and a failed metadata message leaves holes while
the run continues. -/
def clearFilesLoop : List (Option GDFileMsgs) → Except GoError (List (Option GDFileMsgs))
  | [] => .ok []
  | none :: _ => .error .nilPointerDeref
  | some f :: rest =>
    match clearFilesLoop rest with
    | .error e => .error e
    | .ok rest' => .ok (some (NewGDFileMsgs f.LinesMsgs.length) :: rest')

/-- `GDDataIndex.clearMsgs`: every file record is replaced by a fresh one
with the same slot count, then the arrival counter and the selection
cursor are reset to `-1`.  A nil entry in the file table makes the Go
loop panic before the resets are reached (see `clearFilesLoop`). -/
def GDDataIndex.clearMsgs (di : GDDataIndex) : Except GoError GDDataIndex :=
  match clearFilesLoop di.Files with
  | .error e => .error e
  | .ok files =>
    .ok { di with
      Files := files,
      lastArrivalIndex := -1,
      selected := { di.selected with arrivalIndex := -1 } }

/-- `NewGDDataIndex`: Go zero value followed by `clearMsgs`; the zero
value's file table is empty, so that clear cannot panic (the `.error`
arm is unreachable). -/
def NewGDDataIndex (fsCaseInsensitive : Bool) : GDDataIndex :=
  let zero : GDDataIndex :=
    { fsCaseInsensitive := fsCaseInsensitive
      filesIndexM := []
      lastArrivalIndex := 0
      selected := ⟨0, 0, 0, 0, false⟩
      Afds := []
      Files := [] }
  match zero.clearMsgs with
  | .ok di => di
  | .error _ => zero

/-- The `for _, afd := range di.Afds` loop of `handleFilesDataMsg`: fill
the freshly sized table, stopping (with the state mutated so far) at the
first descriptor whose file index is out of range. -/
def setupFiles (files : List (Option GDFileMsgs)) :
    List AnnotatorFileData → List (Option GDFileMsgs) × Option GoError
  | [] => (files, none)
  | afd :: rest =>
    if afd.FileIndex ≥ files.length then
      (files, some (.badFileIndexAtInit afd.FileIndex files.length))
    else
      setupFiles (files.set afd.FileIndex (some (NewGDFileMsgs afd.DebugLen))) rest

/-- `GDDataIndex.handleFilesDataMsg`: replace `Afds`, rebuild the filename
map, size a fresh `Files` table and fill it per descriptor.  The error, if
any, is returned alongside the (possibly partially mutated) state, because
in Go the receiver has already been mutated when the error returns. -/
def GDDataIndex.handleFilesDataMsg (di : GDDataIndex) (fdm : List AnnotatorFileData) :
    GDDataIndex × Option GoError :=
  let di1 := { di with Afds := fdm }
  let di2 := { di1 with
    filesIndexM :=
      di1.Afds.foldl
        (fun m (afd : AnnotatorFileData) =>
          mapInsert m (di1.FilesIndexKey afd.Filename) afd.FileIndex) [] }
  let blank : List (Option GDFileMsgs) := List.replicate di2.Afds.length none
  let r := setupFiles blank di2.Afds
  ({ di2 with Files := r.1 }, r.2)

/-- `GDDataIndex.handleLineMsg`: validate both indices, assign the next
arrival index, append to the target line slot, and auto-advance the
selection cursor when it sat at the previous last arrival index.  A
validation failure returns before any mutation. -/
def GDDataIndex.handleLineMsg (di : GDDataIndex) (u : LineMsg) : GDDataIndex × Option GoError :=
  let l1 := di.Files.length
  if u.FileIndex ≥ l1 then
    (di, some (.badFileIndex u.FileIndex l1))
  else
    match di.Files.getD u.FileIndex none with
    | none => (di, some .nilPointerDeref)
    | some f =>
      let l2 := f.LinesMsgs.length
      if u.DebugIndex ≥ l2 then
        (di, some (.badDebugIndex u.DebugIndex l2))
      else
        let newLast := di.lastArrivalIndex + 1
        let lm : GDLineMsg := ⟨newLast, u⟩
        let slot := f.LinesMsgs.getD u.DebugIndex ⟨[]⟩
        let f' := { f with LinesMsgs := f.LinesMsgs.set u.DebugIndex ⟨slot.lineMsgs ++ [lm]⟩ }
        let sel :=
          if di.selected.arrivalIndex = newLast - 1 then
            { di.selected with arrivalIndex := newLast }
          else di.selected
        ({ di with
            lastArrivalIndex := newLast
            Files := di.Files.set u.FileIndex (some f')
            selected := sel }, none)

/-- `GoDebugInstance.handleLineMsgs`: apply a batch in order, stopping at
the first error (earlier successful applications persist). -/
def GDDataIndex.handleLineMsgsList (di : GDDataIndex) :
    List LineMsg → GDDataIndex × Option GoError
  | [] => (di, none)
  | u :: rest =>
    match di.handleLineMsg u with
    | (di', none) => di'.handleLineMsgsList rest
    | (di', some e) => (di', some e)

/-- `GoDebugInstance.selectNext`. -/
def GDDataIndex.selectNext (di : GDDataIndex) : GDDataIndex × Bool :=
  if di.selected.arrivalIndex < di.lastArrivalIndex then
    ({ di with selected := { di.selected with arrivalIndex := di.selected.arrivalIndex + 1 } }, true)
  else (di, false)

/-- `GoDebugInstance.selectPrev`. -/
def GDDataIndex.selectPrev (di : GDDataIndex) : GDDataIndex × Bool :=
  if di.selected.arrivalIndex > 0 then
    ({ di with selected := { di.selected with arrivalIndex := di.selected.arrivalIndex - 1 } }, true)
  else (di, false)

/-- `GoDebugInstance.selectFirst` (reports a change unconditionally). -/
def GDDataIndex.selectFirst (di : GDDataIndex) : GDDataIndex × Bool :=
  ({ di with selected := { di.selected with arrivalIndex := 0 } }, true)

/-- `GoDebugInstance.selectLast` (reports a change unconditionally). -/
def GDDataIndex.selectLast (di : GDDataIndex) : GDDataIndex × Bool :=
  if di.selected.arrivalIndex < di.lastArrivalIndex then
    ({ di with selected := { di.selected with arrivalIndex := di.lastArrivalIndex } }, true)
  else (di, true)

/-- Go's standard-library `sort.Search` loop (`i, j := 0, n; for i < j { h :=
(i+j)/2; if !f(h) { i = h+1 } else { j = h } }; return i`), written with a
fuel argument so that it is structurally recursive; `j - i` strictly
decreases per iteration, so fuel `j - i` always suffices, and `goSearch`
passes exactly that. -/
def goSearchAux (f : Nat → Bool) : Nat → Nat → Nat → Nat
  | 0, i, _ => i
  | fuel + 1, i, j =>
    if i < j then
      if f ((i + j) / 2) then goSearchAux f fuel i ((i + j) / 2)
      else goSearchAux f fuel ((i + j) / 2 + 1) j
    else i

/-- `sort.Search n f`. -/
def goSearch (f : Nat → Bool) (n : Nat) : Nat := goSearchAux f n 0 n

/-- The search closure of `findSelectedAndUpdateAnnEntries`:
`lm.lineMsgs[i].arrivalIndex > arrivalIndex`.  Only evaluated on indices
below the slot length; the out-of-range extension is arbitrary. -/
def lineSearchF (lm : GDLineMsgs) (arrivalIndex : Int) (i : Nat) : Bool :=
  match lm.lineMsgs[i]? with
  | some u => decide (u.arrivalIndex > arrivalIndex)
  | none => true

/-- The per-line body `k := sort.Search(...); k--` of
`findSelectedAndUpdateAnnEntries` (an `Int`, `-1` meaning "none"). -/
def lineSearchK (lm : GDLineMsgs) (arrivalIndex : Int) : Int :=
  ((goSearch (lineSearchF lm arrivalIndex) lm.lineMsgs.length : Nat) : Int) - 1

/-- Accumulator of the `for line, lm := range file.LinesMsgs` loop of
`findSelectedAndUpdateAnnEntries`. -/
structure FindAccum where
  annEntries : List (Option Ann)
  annIdx : List Int
  selLine : Nat
  selLineStep : Nat
  found : Bool
deriving Repr, DecidableEq, Inhabited

/-- One line of the loop body of `findSelectedAndUpdateAnnEntries`. -/
def findSelStep (arrivalIndex : Int) (line : Nat) (lm : GDLineMsgs) (acc : FindAccum) :
    FindAccum :=
  let k := lineSearchK lm arrivalIndex
  let acc1 :=
    if k < 0 then
      let e : Option Ann :=
        if lm.lineMsgs.length > 0 then
          some (GDLineMsg.emptyAnn (lm.lineMsgs.headD default))
        else none
      { acc with annEntries := acc.annEntries.set line e }
    else
      let u := lm.lineMsgs.getD k.toNat default
      let acc' := { acc with annEntries := acc.annEntries.set line (some (GDLineMsg.fullAnn u)) }
      if u.arrivalIndex = arrivalIndex then
        { acc' with found := true, selLine := line, selLineStep := k.toNat }
      else acc'
  { acc1 with annIdx := acc1.annIdx.set line k }

/-- The loop of `findSelectedAndUpdateAnnEntries` over the remaining lines,
`line` being the index of the first of them. -/
def findSelLoop (arrivalIndex : Int) : Nat → List GDLineMsgs → FindAccum → FindAccum
  | _, [], acc => acc
  | line, lm :: rest, acc =>
    findSelLoop arrivalIndex (line + 1) rest (findSelStep arrivalIndex line lm acc)

/-- `GDFileMsgs.findSelectedAndUpdateAnnEntries`: returns the updated file
record (the Go method updates `AnnEntries` / `AnnEntriesLMIndex` in place)
together with `(selLine, selLineStep, found)`. -/
def GDFileMsgs.findSelectedAndUpdateAnnEntries (file : GDFileMsgs) (arrivalIndex : Int) :
    GDFileMsgs × Nat × Nat × Bool :=
  let acc := findSelLoop arrivalIndex 0 file.LinesMsgs
    ⟨file.AnnEntries, file.AnnEntriesLMIndex, 0, 0, false⟩
  ({ file with AnnEntries := acc.annEntries, AnnEntriesLMIndex := acc.annIdx },
    acc.selLine, acc.selLineStep, acc.found)

/-- The per-line gesture modes routed to `selectCurrent`. -/
inductive TASelAnnType where
  | current
  | currentPrev
  | currentNext
deriving Repr, DecidableEq

/-- `GoDebugInstance.currentAnnotationFileLine`: look the file up by the
erow's name, validate the clicked entry index, and return the file record
together with the addressed line slot.  `annIndex` is a Go `int` from the
UI event, hence `Int`.  `.error` values model Go panics (a stale map entry
pointing past `Files`, a nil file entry, or `LinesMsgs` shorter than the
caches — the last cannot happen for records built by `NewGDFileMsgs`). -/
def GDDataIndex.currentAnnotationFileLine (di : GDDataIndex) (name : String) (annIndex : Int) :
    Except GoError (Option (GDFileMsgs × GDLineMsgs)) :=
  match di.FilesIndex name with
  | none => .ok none
  | some fi =>
    match di.Files[fi]? with
    | none => .error .sliceOutOfRange
    | some none => .error .nilPointerDeref
    | some (some file) =>
      if annIndex < 0 ∨ annIndex ≥ (file.AnnEntriesLMIndex.length : Int) then .ok none
      else
        match file.LinesMsgs[annIndex.toNat]? with
        | none => .error .sliceOutOfRange
        | some line => .ok (some (file, line))

/-- `GoDebugInstance.selectCurrent`: resolve the line's currently shown
local position (clamping the "nothing shown" marker `-1` to `0`), step it
for the Prev/Next-within-line modes with the boundary guards of the
source, and set the global cursor to the arrival index of the resulting
local event.  Reading that event at an invalid local position is a Go
slice-index panic, modelled as `.error .sliceOutOfRange`. -/
def GDDataIndex.selectCurrent (di : GDDataIndex) (name : String) (annIndex : Int)
    (typ : TASelAnnType) : Except GoError (GDDataIndex × Bool) :=
  match di.currentAnnotationFileLine name annIndex with
  | .error e => .error e
  | .ok none => .ok (di, false)
  | .ok (some (file, line)) =>
    let k0 := file.AnnEntriesLMIndex.getD annIndex.toNat 0
    let k := if k0 < 0 then 0 else k0
    match typ with
    | .current =>
      match line.lineMsgs[k.toNat]? with
      | none => .error .sliceOutOfRange
      | some u =>
        .ok ({ di with selected := { di.selected with arrivalIndex := u.arrivalIndex } }, true)
    | .currentPrev =>
      if k = 0 then .ok (di, false)
      else
        match line.lineMsgs[(k - 1).toNat]? with
        | none => .error .sliceOutOfRange
        | some u =>
          .ok ({ di with selected := { di.selected with arrivalIndex := u.arrivalIndex } }, true)
    | .currentNext =>
      if k ≥ (line.lineMsgs.length : Int) - 1 then .ok (di, false)
      else
        match line.lineMsgs[(k + 1).toNat]? with
        | none => .error .sliceOutOfRange
        | some u =>
          .ok ({ di with selected := { di.selected with arrivalIndex := u.arrivalIndex } }, true)

/-- The message kinds consumed by `GoDebugInstance.handleMsg` (the typed
stream from the collaborator).  `errMsg` is an `error` value on the
stream; `strMsg` a plain status string. -/
inductive Msg where
  | errMsg (s : String)
  | strMsg (s : String)
  | filesData (fdm : List AnnotatorFileData)
  | lineMsg (u : LineMsg)
  | lineMsgs (us : List LineMsg)
deriving Repr, DecidableEq

/-- `GoDebugInstance.handleMsg`.  The two fire-and-forget control requests
to the collaborator (`RequestFileSetPositions`, `RequestStart`) have no
effect on the index and are out of scope, so they do not appear.  The
session's data lock is held and the index non-nil for a running loop, so
the `dataLock` nil check of the thin wrappers is not modelled. -/
def handleMsg (di : GDDataIndex) : Msg → GDDataIndex × Option GoError
  | .errMsg s => (di, some (.errMsg s))
  | .strMsg s => if s = "connected" then (di, none) else (di, some (.unhandledString s))
  | .filesData fdm => di.handleFilesDataMsg fdm
  | .lineMsg u => di.handleLineMsg u
  | .lineMsgs us => di.handleLineMsgsList us

/-- State of `GoDebugInstance.clientMsgsLoop`: the shared index, the lines
written to the run's output stream `w` (one per handling error), whether
the refresh-throttle timer channel `updatec` is armed, and how many times
`gdi.updateUI()` has been called. -/
structure LoopState where
  di : GDDataIndex
  output : List GoError
  updatecArmed : Bool
  refreshCount : Nat
deriving Repr, DecidableEq

/-- One iteration's select outcome in `clientMsgsLoop`: external
cancellation (`ctx.Done()`), a received message, channel closure, or the
throttle timer firing.  In Go the timer case can only be selected while
`updatec` is armed (a nil channel blocks forever); the unarmed timer step
is modelled as a no-op. -/
inductive LoopEvent where
  | cancel
  | closed
  | timerFire
  | msg (m : Msg)
deriving Repr, DecidableEq

/-- The local `updateUI` closure of `clientMsgsLoop`: refresh only if the
throttle timer is armed, and disarm it. -/
def finalUpdate (s : LoopState) : LoopState :=
  if s.updatecArmed then
    { s with updatecArmed := false, refreshCount := s.refreshCount + 1 }
  else s

/-- One iteration of `clientMsgsLoop`; the `Bool` is "the loop returns".
On a message: handle it, write any error to the output stream, and arm
the throttle timer if it is not already armed. -/
def loopStep (s : LoopState) : LoopEvent → LoopState × Bool
  | .cancel => (finalUpdate s, true)
  | .closed => (finalUpdate s, true)
  | .timerFire =>
    if s.updatecArmed then
      ({ s with updatecArmed := false, refreshCount := s.refreshCount + 1 }, false)
    else (s, false)
  | .msg m =>
    let r := handleMsg s.di m
    let out := match r.2 with
      | some e => s.output ++ [e]
      | none => s.output
    ({ di := r.1, output := out, updatecArmed := true, refreshCount := s.refreshCount }, false)

/-- `clientMsgsLoop` run over a schedule of select outcomes; stops early
when an iteration returns. -/
def clientMsgsLoop (s : LoopState) : List LoopEvent → LoopState
  | [] => s
  | ev :: rest =>
    match loopStep s ev with
    | (s', true) => s'
    | (s', false) => clientMsgsLoop s' rest

/-- Reference fold: handle a list of messages back to back, collecting the
errors.  `clientMsgsLoop` over a pure message schedule is proved to agree
with it (the loop never stops on a handling error). -/
def ingestAll (di : GDDataIndex) : List Msg → GDDataIndex × List GoError
  | [] => (di, [])
  | m :: rest =>
    let r := handleMsg di m
    let rec' := ingestAll r.1 rest
    (rec'.1, (match r.2 with | some e => [e] | none => []) ++ rec'.2)

/-- A sequence of `applyEvent` (`handleLineMsg`) calls, collecting the
arrival index assigned by each successful call (a failed call assigns
none). -/
def GDDataIndex.applyEvents (di : GDDataIndex) : List LineMsg → GDDataIndex × List Int
  | [] => (di, [])
  | u :: rest =>
    match di.handleLineMsg u with
    | (di', none) =>
      let r := di'.applyEvents rest
      (r.1, di'.lastArrivalIndex :: r.2)
    | (di', some _) => di'.applyEvents rest

/-- The UI collaborator's view of one open file (`ERowInfo`): its name,
the current content's size and hash, and the ids of its open views
(`ERows`).  The editor type itself is outside this core. -/
structure ERowInfo where
  name : String
  fileSize : Int
  fileHash : List Nat
  erows : List Nat
deriving Repr, DecidableEq

/-- Modelled from the spec: `ERowInfo.EqualToBytesHash` lives outside
these sources; per the spec a file is stale ("edited") exactly when its
current content no longer matches the size and hash recorded at run
start, so the check holds iff both recorded size and hash match. -/
def ERowInfo.equalToBytesHash (info : ERowInfo) (size : Int) (hash : List Nat) : Bool :=
  info.fileSize == size && info.fileHash == hash

/-- Outbound calls to the UI collaborator, in emission order. -/
inductive UIAction where
  | annRowState (name : String) (isOn : Bool)
  | annEditedRowState (name : String) (isOn : Bool)
  | setAnns (erow : Nat) (isOn : Bool) (selIndex : Nat) (entries : List (Option Ann))
  | warnMsg (filename : String) (step : Int)
  | openFileERow (filename : String) (offset : Int)
deriving Repr, DecidableEq

/-- `GoDebugInstance.clearDrawerAnn`: push "no annotations" to every view
of the file. -/
def clearDrawerAnn (info : ERowInfo) : List UIAction :=
  info.erows.map (fun er => .setAnns er false 0 [])

/-- `GoDebugInstance.updateInfoUI`: one file's share of a refresh.  Looks
the file up, resolves the selection for it, then checks staleness against
the recorded size/hash: a stale file gets `edited=true` row state and
"no annotations"; a fresh one gets its per-line entry list.  Out-of-range
`Afds`/`Files` accesses are Go panics (`.error`). -/
def GDDataIndex.updateInfoUI (di : GDDataIndex) (info : ERowInfo) :
    Except GoError (GDDataIndex × List UIAction) :=
  match di.FilesIndex info.name with
  | none =>
    .ok (di, [.annRowState info.name false, .annEditedRowState info.name false]
      ++ clearDrawerAnn info)
  | some findex =>
    match di.Files[findex]? with
    | none => .error .sliceOutOfRange
    | some none => .error .nilPointerDeref
    | some (some file) =>
      let r := file.findSelectedAndUpdateAnnEntries di.selected.arrivalIndex
      let selLine := r.2.1
      let selLineStep := r.2.2.1
      let selFound := r.2.2.2
      let di1 := { di with Files := di.Files.set findex (some r.1) }
      let di2 :=
        if selFound then
          { di1 with selected := { di1.selected with
              edited := false, fileIndex := findex, lineIndex := selLine,
              lineStepIndex := selLineStep } }
        else di1
      match di.Afds[findex]? with
      | none => .error .sliceOutOfRange
      | some afd =>
        let edited := !(info.equalToBytesHash afd.FileSize afd.FileHash)
        if edited then
          let di3 :=
            if selFound then
              { di2 with selected := { di2.selected with edited := true } }
            else di2
          .ok (di3, [.annRowState info.name true, .annEditedRowState info.name true]
            ++ clearDrawerAnn info)
        else
          .ok (di2, [.annRowState info.name true, .annEditedRowState info.name false]
            ++ info.erows.map (fun er => .setAnns er true selLine r.1.AnnEntries))

/-- `GoDebugInstance.showSelectedLine`: reveal the selected event's source
location, unless nothing is selected; a selection into an edited file is
replaced by a user-visible warning. -/
def GDDataIndex.showSelectedLine (di : GDDataIndex) : Except GoError (List UIAction) :=
  if di.selected.arrivalIndex < 0 then .ok []
  else
    match di.Afds[di.selected.fileIndex]? with
    | none => .error .sliceOutOfRange
    | some afd =>
      if di.selected.edited then .ok [.warnMsg afd.Filename di.selected.arrivalIndex]
      else
        match di.Files[di.selected.fileIndex]? with
        | none => .error .sliceOutOfRange
        | some none => .error .nilPointerDeref
        | some (some file) =>
          match file.LinesMsgs[di.selected.lineIndex]? with
          | none => .error .sliceOutOfRange
          | some lm =>
            if di.selected.lineStepIndex ≥ lm.lineMsgs.length then .ok []
            else
              match lm.lineMsgs[di.selected.lineStepIndex]? with
              | none => .error .sliceOutOfRange
              | some u => .ok [.openFileERow afd.Filename u.dbgLineMsg.Offset]

/-- A line slot's events are strictly increasing by arrival index. -/
def slotSorted (lm : GDLineMsgs) : Prop :=
  lm.lineMsgs.Pairwise (fun a b => a.arrivalIndex < b.arrivalIndex)

instance (lm : GDLineMsgs) : Decidable (slotSorted lm) := by
  unfold slotSorted
  infer_instance

/-- The display entry `findSelectedAndUpdateAnnEntries` stores for one
line: when the resolution is "none", the placeholder (or nothing for an
eventless line), else the chosen event's entry. -/
def lineAnnEntry (lm : GDLineMsgs) (c : Int) : Option Ann :=
  if lineSearchK lm c < 0 then
    if lm.lineMsgs.length > 0 then some (GDLineMsg.emptyAnn (lm.lineMsgs.headD default))
    else none
  else some (GDLineMsg.fullAnn (lm.lineMsgs.getD (lineSearchK lm c).toNat default))

/-- Whether a line's chosen event matches the cursor exactly. -/
def lineMatches (lm : GDLineMsgs) (c : Int) : Bool :=
  decide (0 ≤ lineSearchK lm c) &&
    decide ((lm.lineMsgs.getD (lineSearchK lm c).toNat default).arrivalIndex = c)

/-- Well-formedness of a file record: the two caches are parallel to the
line-slot array (as `NewGDFileMsgs` builds them and every operation keeps
them) and each slot is sorted by arrival index (invariant (b) of the
spec). -/
def GDFileMsgs.WF (file : GDFileMsgs) : Prop :=
  file.AnnEntries.length = file.LinesMsgs.length ∧
  file.AnnEntriesLMIndex.length = file.LinesMsgs.length ∧
  ∀ lm ∈ file.LinesMsgs, slotSorted lm

instance (file : GDFileMsgs) : Decidable file.WF := by
  unfold GDFileMsgs.WF
  infer_instance

/-- Claim C1, stated over the output of
`GDFileMsgs.findSelectedAndUpdateAnnEntries` at cursor `c`: per line, the
recorded local position `k` is the largest position whose arrival index
is `≤ c` (with `-1` for "none"), the shown entry is the placeholder
exactly for a "none" line that has events and nothing for an eventless
line, and a match is reported precisely when some line's chosen event has
arrival index `c`, in which case the returned line/local position name
such a line. -/
def C1Concl (file : GDFileMsgs) (c : Int) : Prop :=
  let r := file.findSelectedAndUpdateAnnEntries c
  (∀ line, (h : line < file.LinesMsgs.length) →
    let lm := file.LinesMsgs.get ⟨line, h⟩
    ∃ k : Int, r.1.AnnEntriesLMIndex[line]? = some k ∧
      (-1 ≤ k ∧ k < (lm.lineMsgs.length : Int)) ∧
      (∀ i, (hi : i < lm.lineMsgs.length) →
        ((lm.lineMsgs.get ⟨i, hi⟩).arrivalIndex ≤ c ↔ (i : Int) ≤ k)) ∧
      (k < 0 → 0 < lm.lineMsgs.length →
        r.1.AnnEntries[line]? = some (some (GDLineMsg.emptyAnn (lm.lineMsgs.headD default)))) ∧
      (lm.lineMsgs.length = 0 → r.1.AnnEntries[line]? = some none) ∧
      (0 ≤ k → r.1.AnnEntries[line]? =
        some (some (GDLineMsg.fullAnn (lm.lineMsgs.getD k.toNat default))))) ∧
  (r.2.2.2 = true ↔ ∃ line, ∃ h : line < file.LinesMsgs.length,
    0 ≤ lineSearchK (file.LinesMsgs.get ⟨line, h⟩) c ∧
    ((file.LinesMsgs.get ⟨line, h⟩).lineMsgs.getD
      (lineSearchK (file.LinesMsgs.get ⟨line, h⟩) c).toNat default).arrivalIndex = c) ∧
  (r.2.2.2 = true → ∃ hsel : r.2.1 < file.LinesMsgs.length,
    0 ≤ lineSearchK (file.LinesMsgs.get ⟨r.2.1, hsel⟩) c ∧
    r.2.2.1 = (lineSearchK (file.LinesMsgs.get ⟨r.2.1, hsel⟩) c).toNat ∧
    ((file.LinesMsgs.get ⟨r.2.1, hsel⟩).lineMsgs.getD
      (lineSearchK (file.LinesMsgs.get ⟨r.2.1, hsel⟩) c).toNat default).arrivalIndex = c)

/-- Concrete run for witnesses: one file, three declared line slots,
recorded size 100 and hash `[7]`. -/
def demoMeta : List AnnotatorFileData := [⟨0, "f.go", 100, [7], 3⟩]

/-- The index right after the metadata message. -/
def demoDi0 : GDDataIndex := ((NewGDDataIndex false).handleFilesDataMsg demoMeta).1

/-- Three events at lines 0, 1, 0 (the spec's scenario). -/
def demoEvents : List LineMsg := [⟨0, 0, 5, "a"⟩, ⟨0, 1, 17, "b"⟩, ⟨0, 0, 5, "c"⟩]

/-- The index after the three events. -/
def demoDi3 : GDDataIndex := (demoDi0.applyEvents demoEvents).1

/-- Its single file record. -/
def demoFile : GDFileMsgs := (demoDi3.Files.getD 0 none).getD default

/-- Slot well-formedness of one (possibly nil) file record relative to
the arrival counter: each slot sorted, all stored arrival indices in
`[0, last]`. -/
def fileSlotsWF (last : Int) : Option GDFileMsgs → Prop
  | none => True
  | some file => ∀ lm ∈ file.LinesMsgs, slotSorted lm ∧
      ∀ u ∈ lm.lineMsgs, 0 ≤ u.arrivalIndex ∧ u.arrivalIndex ≤ last

instance fileSlotsWFDec (last : Int) : (f : Option GDFileMsgs) → Decidable (fileSlotsWF last f)
  | none => isTrue trivial
  | some file => inferInstanceAs (Decidable (∀ lm ∈ file.LinesMsgs, _ ∧ _))

/-- Invariants (a)/(b) of the spec's data model, as maintained by
ingestion: every file's slots are sorted with arrival indices in
`[0, lastArrivalIndex]`. -/
def slotsWF (di : GDDataIndex) : Prop :=
  ∀ f ∈ di.Files, fileSlotsWF di.lastArrivalIndex f

instance (di : GDDataIndex) : Decidable (slotsWF di) := by
  unfold slotsWF
  infer_instance

/-- Claim C2, stated over `applyEvents` from a state with counter `-1`:
successful calls are assigned exactly `0, 1, 2, ...` in call order; a
failed call leaves the whole state (in particular the counter) unchanged;
afterwards every slot is strictly increasing by position. -/
def C2Concl (di : GDDataIndex) (us : List LineMsg) : Prop :=
  (∀ j, j < (di.applyEvents us).2.length →
    (di.applyEvents us).2[j]? = some ((j : Nat) : Int)) ∧
  (∀ u, (di.handleLineMsg u).2 ≠ none → (di.handleLineMsg u).1 = di) ∧
  slotsWF (di.applyEvents us).1

/-- Claim C5, stated over one `applyEvent` call: on success, if the
cursor equalled the previous last arrival index (including the `-1`/`-1`
initial state) it advances to the newly assigned index, else it is
unchanged. -/
def C5Concl (di : GDDataIndex) (u : LineMsg) : Prop :=
  (di.handleLineMsg u).2 = none →
    ((di.selected.arrivalIndex = di.lastArrivalIndex →
      (di.handleLineMsg u).1.selected.arrivalIndex = di.lastArrivalIndex + 1 ∧
      (di.handleLineMsg u).1.lastArrivalIndex = di.lastArrivalIndex + 1) ∧
    (di.selected.arrivalIndex ≠ di.lastArrivalIndex →
      (di.handleLineMsg u).1.selected.arrivalIndex = di.selected.arrivalIndex))

/-- Event batch for the C2 witness: three validating events interleaved
with a bad line index and a bad file index. -/
def c2Events : List LineMsg :=
  [⟨0, 0, 5, "a"⟩, ⟨0, 9, 0, "x"⟩, ⟨0, 1, 17, "b"⟩, ⟨2, 0, 0, "y"⟩, ⟨0, 0, 5, "c"⟩]

/-- Amended claim C3: the global Clear gesture (`clearMsgs`) on a file
table without nil holes resets the cursor to `-1` and at the same time
resets the arrival counter to `-1` and empties every line slot (keeping
per-file slot counts), leaving the table size, the descriptors, the
filename map and the other selection coordinates unchanged; on a table
with a nil hole (reachable via duplicate-index or failed metadata) the
clear dereferences the nil entry and panics instead of resetting. -/
def C3Concl (di : GDDataIndex) : Prop :=
  ((∀ f ∈ di.Files, f ≠ none) → ∃ di', di.clearMsgs = .ok di' ∧
    di'.selected.arrivalIndex = -1 ∧
    di'.lastArrivalIndex = -1 ∧
    di'.Files.length = di.Files.length ∧
    (∀ (i : Nat) (f : GDFileMsgs), di.Files[i]? = some (some f) →
      di'.Files[i]? = some (some (NewGDFileMsgs f.LinesMsgs.length))) ∧
    (∀ g ∈ di'.Files, ∀ f, g = some f → ∀ lm ∈ f.LinesMsgs, lm.lineMsgs = []) ∧
    di'.Afds = di.Afds ∧
    di'.filesIndexM = di.filesIndexM ∧
    di'.selected.fileIndex = di.selected.fileIndex ∧
    di'.selected.lineIndex = di.selected.lineIndex ∧
    di'.selected.lineStepIndex = di.selected.lineStepIndex ∧
    di'.selected.edited = di.selected.edited) ∧
  ((∃ f ∈ di.Files, f = none) → di.clearMsgs = .error .nilPointerDeref)

/-- Amended claim C7: `applyFileMetadata` (`handleFilesDataMsg`) replaces
the file table wholesale and fails with `IndexError` exactly when some
descriptor's file index is not a valid position in the freshly sized
table; it does not touch the arrival counter or the selection (those are
reset only by index creation and the Clear gesture). -/
def C7Concl (di : GDDataIndex) (fdm : List AnnotatorFileData) : Prop :=
  ((di.handleFilesDataMsg fdm).2 ≠ none ↔ ∃ afd ∈ fdm, fdm.length ≤ afd.FileIndex) ∧
  (di.handleFilesDataMsg fdm).1.lastArrivalIndex = di.lastArrivalIndex ∧
  (di.handleFilesDataMsg fdm).1.selected = di.selected ∧
  (di.handleFilesDataMsg fdm).1.Afds = fdm ∧
  (di.handleFilesDataMsg fdm).1.Files.length = fdm.length ∧
  ((di.handleFilesDataMsg fdm).2 = none →
    ∀ afd ∈ fdm, ∃ file,
      (di.handleFilesDataMsg fdm).1.Files[afd.FileIndex]? = some (some file))

/-- The selection/counter invariant of reachable states: cursor and
counter at least `-1`, cursor non-negative whenever events exist, and a
positive cursor never beyond the counter. -/
def selInv (di : GDDataIndex) : Prop :=
  -1 ≤ di.selected.arrivalIndex ∧ -1 ≤ di.lastArrivalIndex ∧
  (0 ≤ di.lastArrivalIndex → 0 ≤ di.selected.arrivalIndex) ∧
  (0 < di.selected.arrivalIndex → di.selected.arrivalIndex ≤ di.lastArrivalIndex)

instance (di : GDDataIndex) : Decidable (selInv di) := by
  unfold selInv
  infer_instance

/-- Amended claim C6, on states satisfying `selInv`: First sets the
cursor to 0 and always reports a change; Last sets the cursor to
`lastArrivalIndex` iff the cursor is strictly below it (always reporting
a change) and otherwise leaves the state unchanged; Next/Prev move the
cursor by exactly one iff it lies in `[0, last)` resp. `(0, last]` and
otherwise are no-ops reported as "no change"; Next with cursor `-1` is a
no-op; and Next followed by Prev from `0 ≤ c < last` returns to `c`. -/
def C6Concl (di : GDDataIndex) : Prop :=
  ((di.selectFirst).1.selected.arrivalIndex = 0 ∧ (di.selectFirst).2 = true) ∧
  ((di.selected.arrivalIndex < di.lastArrivalIndex →
      (di.selectLast).1.selected.arrivalIndex = di.lastArrivalIndex) ∧
    (¬ di.selected.arrivalIndex < di.lastArrivalIndex → (di.selectLast).1 = di) ∧
    (di.selectLast).2 = true) ∧
  (((di.selectNext).2 = true ↔
      0 ≤ di.selected.arrivalIndex ∧ di.selected.arrivalIndex < di.lastArrivalIndex) ∧
    ((di.selectNext).2 = true →
      (di.selectNext).1.selected.arrivalIndex = di.selected.arrivalIndex + 1) ∧
    ((di.selectNext).2 = false → (di.selectNext).1 = di)) ∧
  (((di.selectPrev).2 = true ↔
      0 < di.selected.arrivalIndex ∧ di.selected.arrivalIndex ≤ di.lastArrivalIndex) ∧
    ((di.selectPrev).2 = true →
      (di.selectPrev).1.selected.arrivalIndex = di.selected.arrivalIndex - 1) ∧
    ((di.selectPrev).2 = false → (di.selectPrev).1 = di)) ∧
  (di.selected.arrivalIndex = -1 → (di.selectNext).1 = di ∧ (di.selectNext).2 = false) ∧
  (0 ≤ di.selected.arrivalIndex → di.selected.arrivalIndex < di.lastArrivalIndex →
    ((di.selectNext).1.selectPrev).1.selected.arrivalIndex = di.selected.arrivalIndex ∧
    ((di.selectNext).1.selectPrev).2 = true)

/-- Amended claim C8: an iteration of `clientMsgsLoop` returns exactly on
cancellation or channel closure, and then performs one immediate final
refresh iff the refresh-throttle timer was armed (a refresh was pending);
with no pending refresh, no final refresh happens. -/
def C8Concl : Prop :=
  ∀ s : LoopState,
    ((loopStep s .cancel).2 = true ∧ (loopStep s .closed).2 = true) ∧
    ((loopStep s .cancel).1.refreshCount =
      s.refreshCount + (if s.updatecArmed then 1 else 0)) ∧
    ((loopStep s .closed).1.refreshCount =
      s.refreshCount + (if s.updatecArmed then 1 else 0)) ∧
    ((loopStep s .cancel).1.updatecArmed = false ∧
      (loopStep s .closed).1.updatecArmed = false)

/-- Amended claim C4: every message-handling error — file-metadata
`IndexError`s included — is written to the run's output stream and the
loop goes on; an iteration returns only on cancellation or channel
closure, so a schedule of pure messages is ingested in full, its states
and error output agreeing with the plain fold `ingestAll`. -/
def C4Concl (s : LoopState) (ms : List Msg) : Prop :=
  (∀ ev, (loopStep s ev).2 = true ↔ (ev = .cancel ∨ ev = .closed)) ∧
  (clientMsgsLoop s (ms.map .msg)).di = (ingestAll s.di ms).1 ∧
  (clientMsgsLoop s (ms.map .msg)).output = s.output ++ (ingestAll s.di ms).2

/-- Schedule for the C4 counterexample: malformed metadata (IndexError),
then valid metadata, then one event, then channel closure. -/
def c4Sched : List LoopEvent :=
  [.msg (.filesData [⟨5, "a.go", 1, [1], 1⟩]),
   .msg (.filesData [⟨0, "b.go", 1, [2], 2⟩]),
   .msg (.lineMsg ⟨0, 0, 0, "x"⟩),
   .closed]

/-- The demo file's view with a drifted content hash (recorded `[7]`,
current `[8]`), one open view with id 41. -/
def demoInfoBad : ERowInfo := ⟨"f.go", 100, [8], [41]⟩

/-- Claim C9, part 1 stated over `updateInfoUI`, part 2 over
`showSelectedLine`: a refresh of a drifted file reports `edited`, pushes
"no annotations" to every view and never a live annotation list; and a
reveal while the selection lies in an edited file is replaced by the
user-visible warning. -/
def C9Concl (di : GDDataIndex) (info : ERowInfo) : Prop :=
  (∃ di' acts, di.updateInfoUI info = .ok (di', acts) ∧
    UIAction.annEditedRowState info.name true ∈ acts ∧
    (∀ er ∈ info.erows, UIAction.setAnns er false 0 [] ∈ acts) ∧
    (∀ a ∈ acts, ∀ er sel es, a ≠ UIAction.setAnns er true sel es)) ∧
  (∀ (di2 : GDDataIndex) (afd2 : AnnotatorFileData),
    0 ≤ di2.selected.arrivalIndex → di2.selected.edited = true →
    di2.Afds[di2.selected.fileIndex]? = some afd2 →
    di2.showSelectedLine = .ok [.warnMsg afd2.Filename di2.selected.arrivalIndex])

/-! ## Theorems -/

/-- `goSearchAux` at an empty range returns the lower bound. -/
theorem goSearchAux_self (f : Nat → Bool) (fuel i : Nat) : goSearchAux f fuel i i = i := by
  cases fuel <;> simp [goSearchAux]

/-- Correctness of the embedded `sort.Search` loop: with enough fuel and a
monotone predicate on `[i, j)`, the result `r` lies in `[i, j]`, the
predicate is false strictly below `r`, and true at `r` when `r < j` — so
`r` is the least index in `[i, j)` satisfying `f`, or `j` if none. -/
theorem goSearchAux_spec (f : Nat → Bool) :
    ∀ (fuel i j : Nat), j - i ≤ fuel → i ≤ j →
      (∀ a b, a ≤ b → b < j → f a = true → f b = true) →
      i ≤ goSearchAux f fuel i j ∧ goSearchAux f fuel i j ≤ j ∧
      (∀ a, i ≤ a → a < goSearchAux f fuel i j → f a = false) ∧
      (goSearchAux f fuel i j < j → f (goSearchAux f fuel i j) = true) := by
  intro fuel
  induction fuel with
  | zero =>
    intro i j hfuel hij _
    have hji : i = j := by omega
    subst hji
    rw [goSearchAux_self]
    refine ⟨Nat.le_refl _, Nat.le_refl _, ?_, ?_⟩
    · intro a ha hb
      exact absurd hb (by omega)
    · intro h
      exact absurd h (by omega)
  | succ fuel ih =>
    intro i j hfuel hij mono
    by_cases hlt : i < j
    · have him : i ≤ (i + j) / 2 := by omega
      have hmj : (i + j) / 2 < j := by omega
      by_cases hf : f ((i + j) / 2) = true
      · have hres : goSearchAux f (fuel + 1) i j = goSearchAux f fuel i ((i + j) / 2) := by
          simp [goSearchAux, hlt, hf]
        rw [hres]
        obtain ⟨h1, h2, h3, h4⟩ := ih i ((i + j) / 2) (by omega) him
          (fun a b hab hb hfa => mono a b hab (by omega) hfa)
        refine ⟨h1, by omega, h3, ?_⟩
        intro _
        rcases eq_or_lt_of_le h2 with he | hl
        · rw [he]
          exact hf
        · exact h4 hl
      · have hres : goSearchAux f (fuel + 1) i j = goSearchAux f fuel ((i + j) / 2 + 1) j := by
          simp [goSearchAux, hlt, hf]
        rw [hres]
        obtain ⟨h1, h2, h3, h4⟩ := ih ((i + j) / 2 + 1) j (by omega) (by omega) mono
        have hfm : f ((i + j) / 2) = false := by
          cases hfm' : f ((i + j) / 2)
          · rfl
          · exact absurd hfm' hf
        refine ⟨by omega, h2, ?_, h4⟩
        intro a hia halt
        by_cases ham : a ≤ (i + j) / 2
        · cases hfa : f a
          · rfl
          · exact absurd (mono a ((i + j) / 2) ham hmj hfa) (by simp [hfm])
        · exact h3 a (by omega) halt
    · have hji : i = j := by omega
      subst hji
      rw [goSearchAux_self]
      refine ⟨Nat.le_refl _, Nat.le_refl _, ?_, ?_⟩
      · intro a ha hb
        exact absurd hb (by omega)
      · intro h
        exact absurd h (by omega)

/-- `sort.Search n f` correctness (fuel `n` always suffices). -/
theorem goSearch_spec (f : Nat → Bool) (n : Nat)
    (mono : ∀ a b, a ≤ b → b < n → f a = true → f b = true) :
    goSearch f n ≤ n ∧
    (∀ a, a < goSearch f n → f a = false) ∧
    (goSearch f n < n → f (goSearch f n) = true) := by
  obtain ⟨_, h2, h3, h4⟩ := goSearchAux_spec f n 0 n (by omega) (Nat.zero_le n) mono
  exact ⟨h2, fun a ha => h3 a (Nat.zero_le a) ha, h4⟩

/-- In a sorted slot, arrival indices are monotone in the position. -/
theorem slotSorted_arr_le (lm : GDLineMsgs) (hs : slotSorted lm) (i j : Nat)
    (hij : i ≤ j) (hj : j < lm.lineMsgs.length) :
    (lm.lineMsgs.get ⟨i, Nat.lt_of_le_of_lt hij hj⟩).arrivalIndex ≤
      (lm.lineMsgs.get ⟨j, hj⟩).arrivalIndex := by
  rcases Nat.eq_or_lt_of_le hij with he | hl
  · subst he
    exact le_refl _
  · rw [slotSorted, List.pairwise_iff_get] at hs
    exact le_of_lt (hs ⟨i, _⟩ ⟨j, _⟩ hl)

/-- The per-line resolution `k` of `findSelectedAndUpdateAnnEntries` on a
sorted slot is exactly "the largest local position `i` with
`arrivalIndex i ≤ c`, or `-1` if there is none": `-1 ≤ k < length` and,
for every position `i`, `arrivalIndex i ≤ c` iff `i ≤ k`. -/
theorem lineSearchK_spec (lm : GDLineMsgs) (c : Int) (hs : slotSorted lm) :
    -1 ≤ lineSearchK lm c ∧ lineSearchK lm c < (lm.lineMsgs.length : Int) ∧
    ∀ i, (hi : i < lm.lineMsgs.length) →
      ((lm.lineMsgs.get ⟨i, hi⟩).arrivalIndex ≤ c ↔ (i : Int) ≤ lineSearchK lm c) := by
  have mono : ∀ a b, a ≤ b → b < lm.lineMsgs.length →
      lineSearchF lm c a = true → lineSearchF lm c b = true := by
    intro a b hab hb hfa
    have ha : a < lm.lineMsgs.length := Nat.lt_of_le_of_lt hab hb
    rw [lineSearchF, List.getElem?_eq_getElem ha] at hfa
    rw [lineSearchF, List.getElem?_eq_getElem hb]
    simp only [decide_eq_true_eq] at hfa ⊢
    have := slotSorted_arr_le lm hs a b hab hb
    calc c < (lm.lineMsgs.get ⟨a, ha⟩).arrivalIndex := hfa
      _ ≤ _ := by simpa using this
  obtain ⟨h2, h3, h4⟩ := goSearch_spec (lineSearchF lm c) lm.lineMsgs.length mono
  set r := goSearch (lineSearchF lm c) lm.lineMsgs.length with hr
  have hk : lineSearchK lm c = (r : Int) - 1 := rfl
  refine ⟨by omega, by omega, ?_⟩
  intro i hi
  constructor
  · intro hle
    by_contra hgt
    have hri : r ≤ i := by omega
    have hrn : r < lm.lineMsgs.length := Nat.lt_of_le_of_lt hri hi
    have hfr := h4 hrn
    rw [lineSearchF, List.getElem?_eq_getElem hrn] at hfr
    simp only [decide_eq_true_eq] at hfr
    have harr := slotSorted_arr_le lm hs r i hri hi
    simp only [List.get_eq_getElem] at harr hle
    omega
  · intro hik
    have hir : i < r := by omega
    have hfi := h3 i hir
    rw [lineSearchF, List.getElem?_eq_getElem hi] at hfi
    simp only [decide_eq_false_iff_not, not_lt] at hfi
    simpa only [List.get_eq_getElem] using hfi

/-- The loop body of `findSelectedAndUpdateAnnEntries` writes
`lineAnnEntry` into the entry cache at the current line. -/
theorem findSelStep_annEntries (c : Int) (line : Nat) (lm : GDLineMsgs) (acc : FindAccum) :
    (findSelStep c line lm acc).annEntries = acc.annEntries.set line (lineAnnEntry lm c) := by
  unfold findSelStep lineAnnEntry
  by_cases hk : lineSearchK lm c < 0
  · simp [hk]
  · by_cases hm : (lm.lineMsgs.getD (lineSearchK lm c).toNat default).arrivalIndex = c
      <;> simp only [List.getD_eq_getElem?_getD] at hm
    · simp [hk, hm]
    · simp [hk, hm]

/-- The loop body writes the resolved `k` into the local-index cache at
the current line. -/
theorem findSelStep_annIdx (c : Int) (line : Nat) (lm : GDLineMsgs) (acc : FindAccum) :
    (findSelStep c line lm acc).annIdx = acc.annIdx.set line (lineSearchK lm c) := by
  unfold findSelStep
  by_cases hk : lineSearchK lm c < 0
  · simp [hk]
  · by_cases hm : (lm.lineMsgs.getD (lineSearchK lm c).toNat default).arrivalIndex = c
      <;> simp only [List.getD_eq_getElem?_getD] at hm
    · simp [hk, hm]
    · simp [hk, hm]

/-- The loop body ors `lineMatches` into the match flag. -/
theorem findSelStep_found (c : Int) (line : Nat) (lm : GDLineMsgs) (acc : FindAccum) :
    (findSelStep c line lm acc).found = (acc.found || lineMatches lm c) := by
  unfold findSelStep lineMatches
  by_cases hk : lineSearchK lm c < 0
  · have hk' : ¬ (0 ≤ lineSearchK lm c) := by omega
    simp [hk, hk']
  · have hk' : (0 ≤ lineSearchK lm c) := by omega
    by_cases hm : (lm.lineMsgs.getD (lineSearchK lm c).toNat default).arrivalIndex = c
      <;> simp only [List.getD_eq_getElem?_getD] at hm
    · simp [hk, hk', hm]
    · simp [hk, hk', hm]

/-- On a matching line the loop body records the line and its resolved
local position. -/
theorem findSelStep_sel_match (c : Int) (line : Nat) (lm : GDLineMsgs) (acc : FindAccum)
    (hm : lineMatches lm c = true) :
    (findSelStep c line lm acc).selLine = line ∧
    (findSelStep c line lm acc).selLineStep = (lineSearchK lm c).toNat := by
  unfold lineMatches at hm
  simp only [Bool.and_eq_true, decide_eq_true_eq] at hm
  unfold findSelStep
  have hk : ¬ lineSearchK lm c < 0 := by omega
  have hm2 := hm.2
  simp only [List.getD_eq_getElem?_getD] at hm2
  simp [hk, hm2]

/-- On a non-matching line the loop body leaves the recorded line/local
position untouched. -/
theorem findSelStep_sel_nomatch (c : Int) (line : Nat) (lm : GDLineMsgs) (acc : FindAccum)
    (hm : lineMatches lm c = false) :
    (findSelStep c line lm acc).selLine = acc.selLine ∧
    (findSelStep c line lm acc).selLineStep = acc.selLineStep := by
  unfold lineMatches at hm
  simp only [Bool.and_eq_false_iff, decide_eq_false_iff_not] at hm
  unfold findSelStep
  by_cases hk : lineSearchK lm c < 0
  · simp [hk]
  · rcases hm with hm | hm
    · exact absurd (by omega) hm
    · simp only [List.getD_eq_getElem?_getD] at hm
      simp [hk, hm]

/-- The loop preserves the lengths of both caches. -/
theorem findSelLoop_len (c : Int) :
    ∀ (msgs : List GDLineMsgs) (line : Nat) (acc : FindAccum),
      (findSelLoop c line msgs acc).annEntries.length = acc.annEntries.length ∧
      (findSelLoop c line msgs acc).annIdx.length = acc.annIdx.length
  | [], _, _ => ⟨rfl, rfl⟩
  | lm :: rest, line, acc => by
    simp only [findSelLoop]
    obtain ⟨h1, h2⟩ := findSelLoop_len c rest (line + 1) (findSelStep c line lm acc)
    rw [h1, h2, findSelStep_annEntries, findSelStep_annIdx]
    simp

/-- Indices below the starting line are untouched by the loop. -/
theorem findSelLoop_get_lt (c : Int) :
    ∀ (msgs : List GDLineMsgs) (line : Nat) (acc : FindAccum) (i : Nat), i < line →
      (findSelLoop c line msgs acc).annEntries[i]? = acc.annEntries[i]? ∧
      (findSelLoop c line msgs acc).annIdx[i]? = acc.annIdx[i]?
  | [], _, _, _, _ => ⟨rfl, rfl⟩
  | lm :: rest, line, acc, i, hi => by
    simp only [findSelLoop]
    obtain ⟨h1, h2⟩ :=
      findSelLoop_get_lt c rest (line + 1) (findSelStep c line lm acc) i (by omega)
    rw [h1, h2, findSelStep_annEntries, findSelStep_annIdx]
    constructor
    · exact List.getElem?_set_ne (by omega)
    · exact List.getElem?_set_ne (by omega)

/-- Within the processed range the loop writes, per line, the entry
`lineAnnEntry` and the resolved index `lineSearchK`. -/
theorem findSelLoop_get (c : Int) :
    ∀ (msgs : List GDLineMsgs) (line : Nat) (acc : FindAccum),
      line + msgs.length ≤ acc.annEntries.length →
      line + msgs.length ≤ acc.annIdx.length →
      ∀ j, (hj : j < msgs.length) →
        (findSelLoop c line msgs acc).annEntries[line + j]? =
          some (lineAnnEntry (msgs.get ⟨j, hj⟩) c) ∧
        (findSelLoop c line msgs acc).annIdx[line + j]? =
          some (lineSearchK (msgs.get ⟨j, hj⟩) c)
  | [], _, _, _, _, j, hj => absurd hj (by simp)
  | lm :: rest, line, acc, hlen1, hlen2, j, hj => by
    simp only [findSelLoop]
    simp only [List.length_cons] at hlen1 hlen2
    match j with
    | 0 =>
      obtain ⟨h1, h2⟩ :=
        findSelLoop_get_lt c rest (line + 1) (findSelStep c line lm acc) line (by omega)
      simp only [Nat.add_zero]
      rw [h1, h2, findSelStep_annEntries, findSelStep_annIdx]
      have hlt1 : line < acc.annEntries.length := by omega
      have hlt2 : line < acc.annIdx.length := by omega
      constructor
      · simp [List.getElem?_set_self', hlt1]
      · simp [List.getElem?_set_self', hlt2]
    | j' + 1 =>
      have hlen1' : (line + 1) + rest.length ≤ (findSelStep c line lm acc).annEntries.length := by
        rw [findSelStep_annEntries]
        simp only [List.length_set]
        omega
      have hlen2' : (line + 1) + rest.length ≤ (findSelStep c line lm acc).annIdx.length := by
        rw [findSelStep_annIdx]
        simp only [List.length_set]
        omega
      have hj' : j' < rest.length := by
        simp only [List.length_cons] at hj
        omega
      obtain ⟨h1, h2⟩ := findSelLoop_get c rest (line + 1) (findSelStep c line lm acc)
        hlen1' hlen2' j' hj'
      have hadd : line + (j' + 1) = (line + 1) + j' := by omega
      rw [hadd, h1, h2]
      exact ⟨by simp, by simp⟩

/-- The loop's match flag is the disjunction of `lineMatches` over the
lines (or the incoming flag). -/
theorem findSelLoop_found (c : Int) :
    ∀ (msgs : List GDLineMsgs) (line : Nat) (acc : FindAccum),
      (findSelLoop c line msgs acc).found
        = (acc.found || msgs.any (fun lm => lineMatches lm c))
  | [], _, acc => by simp [findSelLoop]
  | lm :: rest, line, acc => by
    simp only [findSelLoop]
    rw [findSelLoop_found c rest (line + 1) (findSelStep c line lm acc), findSelStep_found]
    simp [Bool.or_assoc]

/-- With no matching line the loop leaves the recorded line/local
position untouched. -/
theorem findSelLoop_sel_nomatch (c : Int) :
    ∀ (msgs : List GDLineMsgs) (line : Nat) (acc : FindAccum),
      msgs.any (fun lm => lineMatches lm c) = false →
      (findSelLoop c line msgs acc).selLine = acc.selLine ∧
      (findSelLoop c line msgs acc).selLineStep = acc.selLineStep
  | [], _, _, _ => ⟨rfl, rfl⟩
  | lm :: rest, line, acc, h => by
    simp only [List.any_cons, Bool.or_eq_false_iff] at h
    simp only [findSelLoop]
    obtain ⟨h1, h2⟩ :=
      findSelLoop_sel_nomatch c rest (line + 1) (findSelStep c line lm acc) h.2
    obtain ⟨h3, h4⟩ := findSelStep_sel_nomatch c line lm acc h.1
    exact ⟨by rw [h1, h3], by rw [h2, h4]⟩

/-- With a matching line, the loop's recorded line/local position names a
matching line and its resolved position. -/
theorem findSelLoop_sel_match (c : Int) :
    ∀ (msgs : List GDLineMsgs) (line : Nat) (acc : FindAccum),
      msgs.any (fun lm => lineMatches lm c) = true →
      ∃ j, ∃ hj : j < msgs.length,
        lineMatches (msgs.get ⟨j, hj⟩) c = true ∧
        (findSelLoop c line msgs acc).selLine = line + j ∧
        (findSelLoop c line msgs acc).selLineStep = (lineSearchK (msgs.get ⟨j, hj⟩) c).toNat
  | [], _, _, h => by simp at h
  | lm :: rest, line, acc, h => by
    simp only [findSelLoop]
    by_cases hrest : rest.any (fun lm => lineMatches lm c) = true
    · obtain ⟨j, hj, hm, h1, h2⟩ :=
        findSelLoop_sel_match c rest (line + 1) (findSelStep c line lm acc) hrest
      refine ⟨j + 1, by simpa using Nat.succ_lt_succ hj, ?_, ?_, ?_⟩
      · simpa using hm
      · rw [h1]
        omega
      · simpa using h2
    · have hrest' : rest.any (fun lm => lineMatches lm c) = false := by
        cases hx : rest.any (fun lm => lineMatches lm c)
        · rfl
        · exact absurd hx hrest
      have hlm : lineMatches lm c = true := by
        simp only [List.any_cons, Bool.or_eq_true] at h
        rcases h with h | h
        · exact h
        · exact absurd h hrest
      obtain ⟨h1, h2⟩ :=
        findSelLoop_sel_nomatch c rest (line + 1) (findSelStep c line lm acc) hrest'
      obtain ⟨h3, h4⟩ := findSelStep_sel_match c line lm acc hlm
      refine ⟨0, by simp, by simpa using hlm, ?_, ?_⟩
      · rw [h1, h3]
        omega
      · rw [h2, h4]
        rfl

/-- C1: `resolveSelectionForFile` (i.e. `findSelectedAndUpdateAnnEntries`)
resolves each line to the largest local position whose arrival index is
`≤` the cursor (`-1` = "none"), shows the placeholder exactly for "none"
lines that have events and nothing for eventless lines, and reports a
match with its file-local coordinates exactly when some line's chosen
event equals the cursor. -/
theorem C1_resolveSelectionForFile (file : GDFileMsgs) (c : Int) (hwf : file.WF) :
    C1Concl file c := by
  obtain ⟨hl1, hl2, hsort⟩ := hwf
  set acc0 : FindAccum := ⟨file.AnnEntries, file.AnnEntriesLMIndex, 0, 0, false⟩ with hacc
  have hre : (file.findSelectedAndUpdateAnnEntries c).1.AnnEntries
      = (findSelLoop c 0 file.LinesMsgs acc0).annEntries := rfl
  have hri : (file.findSelectedAndUpdateAnnEntries c).1.AnnEntriesLMIndex
      = (findSelLoop c 0 file.LinesMsgs acc0).annIdx := rfl
  have hrl : (file.findSelectedAndUpdateAnnEntries c).2.1
      = (findSelLoop c 0 file.LinesMsgs acc0).selLine := rfl
  have hrs : (file.findSelectedAndUpdateAnnEntries c).2.2.1
      = (findSelLoop c 0 file.LinesMsgs acc0).selLineStep := rfl
  have hrf : (file.findSelectedAndUpdateAnnEntries c).2.2.2
      = (findSelLoop c 0 file.LinesMsgs acc0).found := rfl
  have hfound : (file.findSelectedAndUpdateAnnEntries c).2.2.2
      = file.LinesMsgs.any (fun lm => lineMatches lm c) := by
    rw [hrf, findSelLoop_found c file.LinesMsgs 0 acc0]
    rfl
  unfold C1Concl
  refine ⟨?_, ?_, ?_⟩
  · intro line h
    have hmem : file.LinesMsgs.get ⟨line, h⟩ ∈ file.LinesMsgs := List.get_mem _ _ _
    obtain ⟨hk1, hk2, hk3⟩ := lineSearchK_spec (file.LinesMsgs.get ⟨line, h⟩) c (hsort _ hmem)
    obtain ⟨hge, hgi⟩ := findSelLoop_get c file.LinesMsgs 0 acc0
      (by rw [hacc]; dsimp only; omega) (by rw [hacc]; dsimp only; omega) line h
    rw [Nat.zero_add] at hge hgi
    refine ⟨lineSearchK (file.LinesMsgs.get ⟨line, h⟩) c, ?_, ⟨hk1, hk2⟩, hk3, ?_, ?_, ?_⟩
    · rw [hri]
      exact hgi
    · intro hk0 hlen
      rw [hre, hge]
      unfold lineAnnEntry
      rw [if_pos hk0, if_pos hlen]
    · intro hlen0
      have hk0 : lineSearchK (file.LinesMsgs.get ⟨line, h⟩) c < 0 := by omega
      rw [hre, hge]
      unfold lineAnnEntry
      rw [if_pos hk0, if_neg (by omega)]
    · intro hk0
      rw [hre, hge]
      unfold lineAnnEntry
      rw [if_neg (by omega)]
  · rw [hfound, List.any_eq_true]
    constructor
    · rintro ⟨x, hxmem, hx⟩
      obtain ⟨⟨j, hj⟩, rfl⟩ := List.mem_iff_get.mp hxmem
      unfold lineMatches at hx
      simp only [Bool.and_eq_true, decide_eq_true_eq] at hx
      exact ⟨j, hj, hx.1, hx.2⟩
    · rintro ⟨line, h, h0, harr⟩
      refine ⟨file.LinesMsgs.get ⟨line, h⟩, List.get_mem _ _ _, ?_⟩
      unfold lineMatches
      simp only [List.get_eq_getElem, List.getD_eq_getElem?_getD] at h0 harr
      simp [h0, harr]
  · intro hfnd
    have hany : file.LinesMsgs.any (fun lm => lineMatches lm c) = true := by
      rw [← hfound]
      exact hfnd
    obtain ⟨j, hj, hm, h1, h2⟩ := findSelLoop_sel_match c file.LinesMsgs 0 acc0 hany
    rw [Nat.zero_add] at h1
    have hrl' : (file.findSelectedAndUpdateAnnEntries c).2.1 = j := by rw [hrl, h1]
    rw [hrl']
    unfold lineMatches at hm
    simp only [Bool.and_eq_true, decide_eq_true_eq] at hm
    refine ⟨hj, hm.1, ?_, hm.2⟩
    rw [hrs, h2]

/-- Witness for C1 at the spec's scenario file (three slots, events at
lines 0, 1, 0, cursor 2). -/
theorem C1_resolveSelectionForFile_witness :
    demoFile.WF ∧ C1Concl demoFile 2 :=
  ⟨by decide, C1_resolveSelectionForFile demoFile 2 (by decide)⟩

/-- Full case description of `handleLineMsg`: either it fails and leaves
the state unchanged, or both indices validate and it performs exactly the
source's mutation (counter `+1`, event appended, conditional cursor
advance). -/
theorem handleLineMsg_spec (di : GDDataIndex) (u : LineMsg) :
    ((di.handleLineMsg u).2 ≠ none ∧ (di.handleLineMsg u).1 = di) ∨
    ((di.handleLineMsg u).2 = none ∧
      u.FileIndex < di.Files.length ∧
      ∃ f, di.Files.getD u.FileIndex none = some f ∧
        u.DebugIndex < f.LinesMsgs.length ∧
        (di.handleLineMsg u).1 = { di with
          lastArrivalIndex := di.lastArrivalIndex + 1
          Files := di.Files.set u.FileIndex (some { f with
            LinesMsgs := f.LinesMsgs.set u.DebugIndex
              ⟨(f.LinesMsgs.getD u.DebugIndex ⟨[]⟩).lineMsgs ++
                [⟨di.lastArrivalIndex + 1, u⟩]⟩ })
          selected :=
            if di.selected.arrivalIndex = di.lastArrivalIndex then
              { di.selected with arrivalIndex := di.lastArrivalIndex + 1 }
            else di.selected }) := by
  by_cases h1 : u.FileIndex ≥ di.Files.length
  · left
    simp [GDDataIndex.handleLineMsg, h1]
  · cases hf : di.Files.getD u.FileIndex none with
    | none =>
      left
      simp only [List.getD_eq_getElem?_getD] at hf
      simp [GDDataIndex.handleLineMsg, h1, hf]
    | some f =>
      have hf' := hf
      simp only [List.getD_eq_getElem?_getD] at hf'
      by_cases h2 : u.DebugIndex ≥ f.LinesMsgs.length
      · left
        simp [GDDataIndex.handleLineMsg, h1, hf', h2]
      · right
        refine ⟨?_, by omega, f, rfl, by omega, ?_⟩
        · simp [GDDataIndex.handleLineMsg, h1, hf', h2]
        · simp only [GDDataIndex.handleLineMsg]
          simp [h1, hf', h2, add_sub_cancel_right]

/-- A failed `applyEvent` leaves the whole state unchanged. -/
theorem handleLineMsg_err_frame (di : GDDataIndex) (u : LineMsg)
    (h : (di.handleLineMsg u).2 ≠ none) : (di.handleLineMsg u).1 = di := by
  rcases handleLineMsg_spec di u with ⟨_, he⟩ | ⟨hok, _⟩
  · exact he
  · exact absurd hok h

/-- A successful `applyEvent` advances the counter by exactly one. -/
theorem handleLineMsg_ok_last (di : GDDataIndex) (u : LineMsg)
    (h : (di.handleLineMsg u).2 = none) :
    (di.handleLineMsg u).1.lastArrivalIndex = di.lastArrivalIndex + 1 := by
  rcases handleLineMsg_spec di u with ⟨hne, _⟩ | ⟨_, _, f, _, _, he⟩
  · exact absurd h hne
  · rw [he]

/-- `fileSlotsWF` is monotone in the counter bound. -/
theorem fileSlotsWF_mono (last last' : Int) (h : last ≤ last') :
    ∀ f, fileSlotsWF last f → fileSlotsWF last' f
  | none, _ => trivial
  | some file, hwf => by
    intro lm hlm
    obtain ⟨hs, hb⟩ := hwf lm hlm
    exact ⟨hs, fun u hu => ⟨(hb u hu).1, le_trans (hb u hu).2 h⟩⟩

/-- Unfolding helper for `fileSlotsWF` at a present record. -/
theorem fileSlotsWF_some (last : Int) (file : GDFileMsgs)
    (h : fileSlotsWF last (some file)) :
    ∀ lm ∈ file.LinesMsgs, slotSorted lm ∧
      ∀ u ∈ lm.lineMsgs, 0 ≤ u.arrivalIndex ∧ u.arrivalIndex ≤ last := h

/-- `applyEvent` preserves the slot invariants and the counter bound. -/
theorem handleLineMsg_slotsWF (di : GDDataIndex) (u : LineMsg)
    (hwf : slotsWF di) (hlast : -1 ≤ di.lastArrivalIndex) :
    slotsWF (di.handleLineMsg u).1 ∧ -1 ≤ (di.handleLineMsg u).1.lastArrivalIndex := by
  rcases handleLineMsg_spec di u with ⟨_, he⟩ | ⟨_, hflen, f, hf, hdlen, he⟩
  · rw [he]
    exact ⟨hwf, hlast⟩
  · have hmemf : some f ∈ di.Files := by
      have h' : di.Files[u.FileIndex]?.getD none = some f := by
        simpa [List.getD_eq_getElem?_getD] using hf
      rw [List.getElem?_eq_getElem hflen] at h'
      simp only [Option.getD_some] at h'
      rw [← h']
      exact List.getElem_mem hflen
    have hwff := fileSlotsWF_some di.lastArrivalIndex f (hwf (some f) hmemf)
    rw [he]
    constructor
    · intro g hg
      rcases List.mem_or_eq_of_mem_set hg with hg | hg
      · exact fileSlotsWF_mono di.lastArrivalIndex (di.lastArrivalIndex + 1) (by omega) g
          (hwf g hg)
      · subst hg
        intro lm hlm
        rcases List.mem_or_eq_of_mem_set hlm with hlm | hlm
        · obtain ⟨hs, hb⟩ := hwff lm hlm
          refine ⟨hs, fun v hv => ⟨(hb v hv).1, ?_⟩⟩
          have := (hb v hv).2
          dsimp only
          omega
        · subst hlm
          have hmemslot : f.LinesMsgs.getD u.DebugIndex ⟨[]⟩ ∈ f.LinesMsgs := by
            have h' : f.LinesMsgs[u.DebugIndex]?.getD ⟨[]⟩ =
                f.LinesMsgs.getD u.DebugIndex ⟨[]⟩ := by
              simp [List.getD_eq_getElem?_getD]
            rw [List.getElem?_eq_getElem hdlen] at h'
            simp only [Option.getD_some] at h'
            rw [← h']
            exact List.getElem_mem hdlen
          obtain ⟨hs, hb⟩ := hwff _ hmemslot
          constructor
          · unfold slotSorted at hs ⊢
            rw [List.pairwise_append]
            refine ⟨hs, by simp, ?_⟩
            intro a ha b hb'
            simp only [List.mem_singleton] at hb'
            subst hb'
            have := (hb a ha).2
            simp only []
            omega
          · intro v hv
            rcases List.mem_append.mp hv with hv | hv
            · have := hb v hv
              refine ⟨this.1, ?_⟩
              dsimp only
              omega
            · simp only [List.mem_singleton] at hv
              subst hv
              constructor
              · dsimp only
                omega
              · dsimp only
                omega
    · dsimp only
      omega

/-- A failed leading `applyEvent` drops out of an `applyEvents` run. -/
theorem applyEvents_cons_err (di : GDDataIndex) (u : LineMsg) (us : List LineMsg)
    (h : (di.handleLineMsg u).2 ≠ none) :
    di.applyEvents (u :: us) = di.applyEvents us := by
  have hfr := handleLineMsg_err_frame di u h
  cases hres : di.handleLineMsg u with
  | mk di' e =>
    cases e with
    | none =>
      rw [hres] at h
      simp at h
    | some er =>
      rw [hres] at hfr
      simp only [] at hfr
      conv_lhs => rw [GDDataIndex.applyEvents, hres]
      rw [hfr]

/-- A successful leading `applyEvent` contributes its new arrival index
and continues from the mutated state. -/
theorem applyEvents_cons_ok (di : GDDataIndex) (u : LineMsg) (us : List LineMsg)
    (h : (di.handleLineMsg u).2 = none) :
    (di.applyEvents (u :: us)).1 = ((di.handleLineMsg u).1.applyEvents us).1 ∧
    (di.applyEvents (u :: us)).2 =
      (di.handleLineMsg u).1.lastArrivalIndex :: ((di.handleLineMsg u).1.applyEvents us).2 := by
  cases hres : di.handleLineMsg u with
  | mk di' e =>
    cases e with
    | some er =>
      rw [hres] at h
      simp at h
    | none =>
      constructor
      · conv_lhs => rw [GDDataIndex.applyEvents, hres]
      · conv_lhs => rw [GDDataIndex.applyEvents, hres]

/-- The state after a sequence of `applyEvent` calls only depends on each
call's mutation. -/
theorem applyEvents_cons_state (di : GDDataIndex) (u : LineMsg) (us : List LineMsg) :
    (di.applyEvents (u :: us)).1 = ((di.handleLineMsg u).1.applyEvents us).1 := by
  by_cases h : (di.handleLineMsg u).2 = none
  · exact (applyEvents_cons_ok di u us h).1
  · rw [applyEvents_cons_err di u us h, handleLineMsg_err_frame di u h]

/-- `applyEvents` preserves the slot invariants. -/
theorem applyEvents_slotsWF : ∀ (us : List LineMsg) (di : GDDataIndex),
    slotsWF di → -1 ≤ di.lastArrivalIndex →
    slotsWF (di.applyEvents us).1 ∧ -1 ≤ (di.applyEvents us).1.lastArrivalIndex
  | [], _, h1, h2 => ⟨h1, h2⟩
  | u :: us, di, h1, h2 => by
    rw [applyEvents_cons_state]
    obtain ⟨h1', h2'⟩ := handleLineMsg_slotsWF di u h1 h2
    exact applyEvents_slotsWF us _ h1' h2'

/-- The arrival indices assigned by an `applyEvents` run are consecutive
from one past the starting counter. -/
theorem applyEvents_assigned : ∀ (us : List LineMsg) (di : GDDataIndex) (j : Nat),
    j < (di.applyEvents us).2.length →
    (di.applyEvents us).2[j]? = some (di.lastArrivalIndex + 1 + (j : Int))
  | [], di, j, hj => by
    simp [GDDataIndex.applyEvents] at hj
  | u :: us, di, j, hj => by
    by_cases h : (di.handleLineMsg u).2 = none
    · obtain ⟨_, h2⟩ := applyEvents_cons_ok di u us h
      have hlast := handleLineMsg_ok_last di u h
      rw [h2] at hj ⊢
      match j with
      | 0 => simp [hlast]
      | j' + 1 =>
        simp only [List.getElem?_cons_succ]
        have hj' : j' < ((di.handleLineMsg u).1.applyEvents us).2.length := by
          simp only [List.length_cons] at hj
          omega
        rw [applyEvents_assigned us (di.handleLineMsg u).1 j' hj', hlast]
        congr 1
        push_cast
        ring
    · rw [applyEvents_cons_err di u us h] at hj ⊢
      exact applyEvents_assigned us di j hj


/-- C2: from a fresh index, `applyEvent` assigns arrival indices
`0, 1, 2, ...` to the validating calls in call order; a failing call
leaves the state (counter included) unchanged; afterwards every line
slot is strictly increasing by position. -/
theorem C2_arrival_indices (di : GDDataIndex) (us : List LineMsg)
    (h1 : di.lastArrivalIndex = -1) (h2 : slotsWF di) : C2Concl di us := by
  refine ⟨?_, ?_, ?_⟩
  · intro j hj
    rw [applyEvents_assigned us di j hj, h1]
    congr 1
    omega
  · intro u hu
    exact handleLineMsg_err_frame di u hu
  · exact (applyEvents_slotsWF us di h2 (by omega)).1

/-- Witness for C2: the fresh demo index with a batch containing two
non-validating events. -/
theorem C2_arrival_indices_witness :
    (demoDi0.lastArrivalIndex = -1 ∧ slotsWF demoDi0) ∧ C2Concl demoDi0 c2Events :=
  ⟨by decide, C2_arrival_indices demoDi0 c2Events (by decide) (by decide)⟩

/-- C5: on a successful `applyEvent`, a cursor sitting at the previous
last arrival index (also in the initial `-1`/`-1` state) auto-advances to
the new event's index, any other cursor stays; and after the three demo
events into an empty index the cursor is 2. -/
theorem C5_cursor_follow_latest :
    (∀ (di : GDDataIndex) (u : LineMsg), C5Concl di u) ∧
    demoDi3.selected.arrivalIndex = 2 := by
  constructor
  · intro di u hok
    rcases handleLineMsg_spec di u with ⟨hne, _⟩ | ⟨_, _, f, _, _, he⟩
    · exact absurd hok hne
    · rw [he]
      constructor
      · intro hsel
        simp [hsel]
      · intro hsel
        simp [hsel]
  · decide

/-- Witness for C5: a fourth event while the cursor follows the end
advances the cursor to the new index 3. -/
theorem C5_cursor_follow_latest_witness :
    ((demoDi3.handleLineMsg ⟨0, 2, 30, "d"⟩).2 = none ∧
      demoDi3.selected.arrivalIndex = demoDi3.lastArrivalIndex) ∧
    (demoDi3.handleLineMsg ⟨0, 2, 30, "d"⟩).1.selected.arrivalIndex =
      demoDi3.lastArrivalIndex + 1 :=
  ⟨⟨by decide, by decide⟩,
    ((C5_cursor_follow_latest.1 demoDi3 ⟨0, 2, 30, "d"⟩ (by decide)).1 (by decide)).1⟩

/-- `clearFilesLoop` succeeds on a table without nil holes. -/
theorem clearFilesLoop_ok : ∀ (fs : List (Option GDFileMsgs)),
    (∀ f ∈ fs, f ≠ none) → ∃ files', clearFilesLoop fs = .ok files'
  | [], _ => ⟨[], rfl⟩
  | none :: rest, h => absurd rfl (h none (by simp))
  | some f :: rest, h => by
    obtain ⟨rest', hr⟩ := clearFilesLoop_ok rest (fun g hg => h g (by simp [hg]))
    refine ⟨some (NewGDFileMsgs f.LinesMsgs.length) :: rest', ?_⟩
    unfold clearFilesLoop
    rw [hr]

/-- `clearFilesLoop` panics on the first nil hole. -/
theorem clearFilesLoop_nil : ∀ (fs : List (Option GDFileMsgs)),
    (∃ f ∈ fs, f = none) → clearFilesLoop fs = .error .nilPointerDeref
  | [], h => by simp at h
  | none :: rest, _ => rfl
  | some f :: rest, h => by
    have hrest : ∃ g ∈ rest, g = none := by
      obtain ⟨g, hg, hgn⟩ := h
      rcases List.mem_cons.mp hg with rfl | hg
      · exact Option.noConfusion hgn
      · exact ⟨g, hg, hgn⟩
    unfold clearFilesLoop
    rw [clearFilesLoop_nil rest hrest]

/-- Characterization of a successful `clearFilesLoop`: same length, each
present entry replaced by a fresh record with the same slot count, and
every slot of the result empty. -/
theorem clearFilesLoop_spec : ∀ (fs files' : List (Option GDFileMsgs)),
    clearFilesLoop fs = .ok files' →
    files'.length = fs.length ∧
    (∀ (i : Nat) (f : GDFileMsgs), fs[i]? = some (some f) →
      files'[i]? = some (some (NewGDFileMsgs f.LinesMsgs.length))) ∧
    (∀ g ∈ files', ∀ f, g = some f → ∀ lm ∈ f.LinesMsgs, lm.lineMsgs = [])
  | [], files', h => by
    have h' : ([] : List (Option GDFileMsgs)) = files' := Except.ok.inj h
    subst h'
    refine ⟨rfl, ?_, ?_⟩
    · intro i f hf
      simp at hf
    · intro g hg
      simp at hg
  | none :: rest, files', h => Except.noConfusion h
  | some f :: rest, files', h => by
    unfold clearFilesLoop at h
    cases hr : clearFilesLoop rest with
    | error e =>
      rw [hr] at h
      exact Except.noConfusion h
    | ok rest' =>
      rw [hr] at h
      have h' : some (NewGDFileMsgs f.LinesMsgs.length) :: rest' = files' := Except.ok.inj h
      subst h'
      obtain ⟨ih1, ih2, ih3⟩ := clearFilesLoop_spec rest rest' hr
      refine ⟨by simp [ih1], ?_, ?_⟩
      · intro i f' hf'
        match i with
        | 0 =>
          simp only [List.getElem?_cons_zero] at hf'
          have hff : f = f' := Option.some.inj (Option.some.inj hf')
          subst hff
          simp
        | i' + 1 =>
          simp only [List.getElem?_cons_succ] at hf' ⊢
          exact ih2 i' f' hf'
      · intro g hg f' hgf lm hlm
        rcases List.mem_cons.mp hg with rfl | hg
        · have h2 : NewGDFileMsgs f.LinesMsgs.length = f' := Option.some.inj hgf
          subst h2
          have hlm' : lm = GDLineMsgs.mk [] := by
            simp only [NewGDFileMsgs, List.mem_replicate] at hlm
            exact hlm.2
          rw [hlm']
        · exact ih3 g hg f' hgf lm hlm

/-- C3 counterexample: on the demo index holding three events, the Clear
gesture resets the arrival counter (2 becomes -1) and empties the stored
line slots, contradicting "changes nothing else". -/
theorem C3_counterexample :
    demoDi3.lastArrivalIndex = 2 ∧
    (demoDi3.clearMsgs).toOption.map GDDataIndex.lastArrivalIndex = some (-1) ∧
    (demoDi3.clearMsgs).toOption.map GDDataIndex.Files ≠ some demoDi3.Files := by
  decide

/-- C3 amended: on a table without nil holes, Clear resets cursor and
counter to -1 and empties every slot keeping slot counts, touching
nothing else; on a table with a nil hole it nil-pointer-panics instead
of resetting. -/
theorem C3_clear_resets (di : GDDataIndex) : C3Concl di := by
  constructor
  · intro hnone
    obtain ⟨files', hok⟩ := clearFilesLoop_ok di.Files hnone
    obtain ⟨hlen, hidx, hemp⟩ := clearFilesLoop_spec di.Files files' hok
    refine ⟨{ di with
        Files := files'
        lastArrivalIndex := -1
        selected := { di.selected with arrivalIndex := -1 } }, ?_,
      rfl, rfl, hlen, hidx, hemp, rfl, rfl, rfl, rfl, rfl, rfl⟩
    unfold GDDataIndex.clearMsgs
    rw [hok]
  · intro hhole
    unfold GDDataIndex.clearMsgs
    rw [clearFilesLoop_nil di.Files hhole]

/-- Witness for C3 amended: the demo index has no nil holes; applying the
amended theorem there shows the single file record becomes a fresh
three-slot record. -/
theorem C3_clear_resets_witness :
    (∀ f ∈ demoDi3.Files, f ≠ none) ∧
    ∃ di', demoDi3.clearMsgs = .ok di' ∧
      di'.Files[0]? = some (some (NewGDFileMsgs demoFile.LinesMsgs.length)) := by
  have h := C3_clear_resets demoDi3
  refine ⟨by decide, ?_⟩
  obtain ⟨di', hok, _, _, _, hidx, _⟩ := h.1 (by decide)
  exact ⟨di', hok, hidx 0 demoFile (by decide)⟩

/-- `setupFiles` preserves the table length. -/
theorem setupFiles_length : ∀ (l : List AnnotatorFileData) (fs : List (Option GDFileMsgs)),
    (setupFiles fs l).1.length = fs.length
  | [], _ => rfl
  | afd :: rest, fs => by
    unfold setupFiles
    by_cases h : afd.FileIndex ≥ fs.length
    · simp [h]
    · simp only [h, if_false]
      rw [setupFiles_length rest _]
      simp

/-- `setupFiles` fails iff some descriptor's file index is out of range
for the (fixed-size) table. -/
theorem setupFiles_err : ∀ (l : List AnnotatorFileData) (fs : List (Option GDFileMsgs)),
    ((setupFiles fs l).2 ≠ none ↔ ∃ afd ∈ l, fs.length ≤ afd.FileIndex)
  | [], fs => by simp [setupFiles]
  | afd :: rest, fs => by
    unfold setupFiles
    by_cases h : afd.FileIndex ≥ fs.length
    · simp only [h, if_true]
      simp only [ne_eq, Option.some_ne_none, not_false_iff, true_iff]
      exact ⟨afd, by simp, h⟩
    · simp only [h, if_false]
      rw [setupFiles_err rest _]
      constructor
      · rintro ⟨a, ha, hle⟩
        exact ⟨a, by simp [ha], by simpa using hle⟩
      · rintro ⟨a, ha, hle⟩
        rcases List.mem_cons.mp ha with rfl | ha
        · exact absurd hle (by omega)
        · exact ⟨a, ha, by simpa using hle⟩

/-- `setupFiles` keeps already filled entries filled (with a possibly
different record). -/
theorem setupFiles_keeps_some :
    ∀ (l : List AnnotatorFileData) (fs : List (Option GDFileMsgs)) (i : Nat),
      (∃ f, fs[i]? = some (some f)) →
      ∃ f, (setupFiles fs l).1[i]? = some (some f)
  | [], _, _, h => h
  | afd :: rest, fs, i, h => by
    unfold setupFiles
    by_cases hb : afd.FileIndex ≥ fs.length
    · simp only [hb, if_true]
      exact h
    · simp only [hb, if_false]
      apply setupFiles_keeps_some rest _ i
      by_cases hi : afd.FileIndex = i
      · subst hi
        obtain ⟨f, hf⟩ := h
        have hlt : afd.FileIndex < fs.length := by omega
        exact ⟨NewGDFileMsgs afd.DebugLen, by simp [List.getElem?_set_self', hlt]⟩
      · obtain ⟨f, hf⟩ := h
        exact ⟨f, by rw [List.getElem?_set_ne hi]; exact hf⟩

/-- On success every declared file index ends up populated. -/
theorem setupFiles_fills :
    ∀ (l : List AnnotatorFileData) (fs : List (Option GDFileMsgs)),
      (setupFiles fs l).2 = none →
      ∀ afd ∈ l, ∃ file, (setupFiles fs l).1[afd.FileIndex]? = some (some file)
  | [], _, _, _, h => absurd h (List.not_mem_nil _)
  | afd :: rest, fs, hok, a, ha => by
    unfold setupFiles at hok ⊢
    by_cases hb : afd.FileIndex ≥ fs.length
    · rw [if_pos hb] at hok
      exact absurd hok (by simp)
    · rw [if_neg hb] at hok ⊢
      rcases List.mem_cons.mp ha with rfl | ha
      · apply setupFiles_keeps_some
        have hlt : a.FileIndex < fs.length := by omega
        exact ⟨NewGDFileMsgs a.DebugLen, by simp [List.getElem?_set_self', hlt]⟩
      · exact setupFiles_fills rest _ hok a ha

/-- C7 counterexample: a metadata message applied to the demo index with
three stored events leaves the arrival counter at 2 and the cursor at 2 —
no reset to -1 happens, contradicting the claimed side effect. -/
theorem C7_counterexample :
    demoDi3.lastArrivalIndex = 2 ∧ demoDi3.selected.arrivalIndex = 2 ∧
    (demoDi3.handleFilesDataMsg demoMeta).2 = none ∧
    (demoDi3.handleFilesDataMsg demoMeta).1.lastArrivalIndex = 2 ∧
    (demoDi3.handleFilesDataMsg demoMeta).1.selected.arrivalIndex = 2 := by decide

/-- C7 amended: `handleFilesDataMsg` replaces the table wholesale,
fails exactly when a descriptor's file index is out of range for the
freshly sized table, and never touches the counter or the selection. -/
theorem C7_files_metadata (di : GDDataIndex) (fdm : List AnnotatorFileData) :
    C7Concl di fdm := by
  unfold C7Concl
  have hlen : (List.replicate fdm.length (none : Option GDFileMsgs)).length = fdm.length := by
    simp
  refine ⟨?_, rfl, rfl, rfl, ?_, ?_⟩
  · rw [show (di.handleFilesDataMsg fdm).2 =
      (setupFiles (List.replicate fdm.length none) fdm).2 from rfl]
    rw [setupFiles_err fdm _, hlen]
  · rw [show (di.handleFilesDataMsg fdm).1.Files =
      (setupFiles (List.replicate fdm.length none) fdm).1 from rfl]
    rw [setupFiles_length fdm _, hlen]
  · intro hok a ha
    rw [show (di.handleFilesDataMsg fdm).1.Files =
      (setupFiles (List.replicate fdm.length none) fdm).1 from rfl]
    apply setupFiles_fills fdm _ ?_ a ha
    exact hok

/-- Witness for C7 amended: on the demo index the metadata call succeeds,
keeps the counter, and populates file index 0. -/
theorem C7_files_metadata_witness :
    ((demoDi3.handleFilesDataMsg demoMeta).2 = none ∧
      (demoDi3.handleFilesDataMsg demoMeta).1.lastArrivalIndex = demoDi3.lastArrivalIndex) ∧
    ∃ file, (demoDi3.handleFilesDataMsg demoMeta).1.Files[0]? = some (some file) := by
  have h := C7_files_metadata demoDi3 demoMeta
  refine ⟨⟨by decide, h.2.1⟩, ?_⟩
  have h2 := h.2.2.2.2.2 (by decide) ⟨0, "f.go", 100, [7], 3⟩ (by decide)
  simpa using h2

/-- C6 counterexample: from the reachable state "First pressed before any
event" (cursor 0, counter -1), the cursor is not at `lastArrivalIndex`,
yet Last leaves it at 0 instead of setting it to `lastArrivalIndex`. -/
theorem C6_counterexample :
    (((NewGDDataIndex false).selectFirst).1.selected.arrivalIndex = 0 ∧
      ((NewGDDataIndex false).selectFirst).1.lastArrivalIndex = -1) ∧
    ((((NewGDDataIndex false).selectFirst).1.selectLast).1.selected.arrivalIndex = 0) := by
  decide

/-- Behavior of `selectLast` by cases on the guard. -/
theorem selectLast_spec (di : GDDataIndex) :
    ((di.selectLast).2 = true) ∧
    (di.selected.arrivalIndex < di.lastArrivalIndex →
      (di.selectLast).1 = { di with
        selected := { di.selected with arrivalIndex := di.lastArrivalIndex } }) ∧
    (¬ di.selected.arrivalIndex < di.lastArrivalIndex → (di.selectLast).1 = di) := by
  unfold GDDataIndex.selectLast
  by_cases h : di.selected.arrivalIndex < di.lastArrivalIndex <;> simp [h]

/-- Behavior of `selectNext` by cases on the guard. -/
theorem selectNext_spec (di : GDDataIndex) :
    ((di.selectNext).2 = true ↔ di.selected.arrivalIndex < di.lastArrivalIndex) ∧
    ((di.selectNext).2 = true → (di.selectNext).1 = { di with
      selected := { di.selected with arrivalIndex := di.selected.arrivalIndex + 1 } }) ∧
    ((di.selectNext).2 = false → (di.selectNext).1 = di) := by
  unfold GDDataIndex.selectNext
  by_cases h : di.selected.arrivalIndex < di.lastArrivalIndex <;> simp [h]

/-- Behavior of `selectPrev` by cases on the guard. -/
theorem selectPrev_spec (di : GDDataIndex) :
    ((di.selectPrev).2 = true ↔ 0 < di.selected.arrivalIndex) ∧
    ((di.selectPrev).2 = true → (di.selectPrev).1 = { di with
      selected := { di.selected with arrivalIndex := di.selected.arrivalIndex - 1 } }) ∧
    ((di.selectPrev).2 = false → (di.selectPrev).1 = di) := by
  unfold GDDataIndex.selectPrev
  by_cases h : di.selected.arrivalIndex > 0 <;> simp [h]

/-- C6 amended: the four global moves behave as claimed on every state
satisfying the selection invariant, with Last's condition being "cursor
strictly below the counter". -/
theorem C6_moveSelection (di : GDDataIndex) (hinv : selInv di) : C6Concl di := by
  obtain ⟨h1, h2, h3, h4⟩ := hinv
  obtain ⟨hN1, hN2, hN3⟩ := selectNext_spec di
  obtain ⟨hP1, hP2, hP3⟩ := selectPrev_spec di
  obtain ⟨hL1, hL2, hL3⟩ := selectLast_spec di
  refine ⟨⟨rfl, rfl⟩, ⟨?_, hL3, hL1⟩, ⟨?_, ?_, hN3⟩, ⟨?_, ?_, hP3⟩, ?_, ?_⟩
  · intro h
    rw [hL2 h]
  · rw [hN1]
    constructor
    · intro h
      have h0 : 0 ≤ di.selected.arrivalIndex := h3 (by omega)
      exact ⟨h0, h⟩
    · intro h
      exact h.2
  · intro h
    rw [hN2 h]
  · rw [hP1]
    constructor
    · intro h
      exact ⟨h, h4 h⟩
    · intro h
      exact h.1
  · intro h
    rw [hP2 h]
  · intro hm1
    have hfalse : (di.selectNext).2 = false := by
      cases hb : (di.selectNext).2
      · rfl
      · rw [hN1] at hb
        have := h3 (by omega)
        omega
    exact ⟨hN3 hfalse, hfalse⟩
  · intro hge hlt
    have ht : (di.selectNext).2 = true := by
      rw [hN1]
      omega
    have hstate := hN2 ht
    obtain ⟨hQ1, hQ2, hQ3⟩ := selectPrev_spec (di.selectNext).1
    have hsel1 : (di.selectNext).1.selected.arrivalIndex = di.selected.arrivalIndex + 1 := by
      rw [hstate]
    have hpt : ((di.selectNext).1.selectPrev).2 = true := by
      rw [hQ1, hsel1]
      omega
    refine ⟨?_, hpt⟩
    rw [hQ2 hpt]
    dsimp only
    rw [hsel1]
    omega

/-- Witness for C6 amended: the demo index after pressing First (cursor 0,
three events) satisfies the invariant; the amended move behavior holds
there. -/
theorem C6_moveSelection_witness :
    selInv (demoDi3.selectFirst).1 ∧ C6Concl (demoDi3.selectFirst).1 :=
  ⟨by decide, C6_moveSelection (demoDi3.selectFirst).1 (by decide)⟩

/-- The selection invariant holds on a fresh index. -/
theorem selInv_new (b : Bool) : selInv (NewGDDataIndex b) := by
  cases b <;> decide

/-- A successful `clearMsgs` (a panic crashes) (re)establishes the
selection invariant. -/
theorem selInv_clearMsgs (di di' : GDDataIndex) (h : di.clearMsgs = .ok di') :
    selInv di' := by
  unfold GDDataIndex.clearMsgs at h
  cases hr : clearFilesLoop di.Files with
  | error e =>
    rw [hr] at h
    exact Except.noConfusion h
  | ok files =>
    rw [hr] at h
    have h' := Except.ok.inj h
    rw [← h']
    unfold selInv
    refine ⟨?_, ?_, ?_, ?_⟩ <;> dsimp only <;> omega

/-- `handleFilesDataMsg` preserves the selection invariant (it touches
neither cursor nor counter). -/
theorem selInv_handleFilesDataMsg (di : GDDataIndex) (fdm : List AnnotatorFileData)
    (h : selInv di) : selInv (di.handleFilesDataMsg fdm).1 := h

/-- `handleLineMsg` preserves the selection invariant. -/
theorem selInv_handleLineMsg (di : GDDataIndex) (u : LineMsg) (h : selInv di) :
    selInv (di.handleLineMsg u).1 := by
  rcases handleLineMsg_spec di u with ⟨_, he⟩ | ⟨_, _, f, _, _, he⟩
  · rw [he]
    exact h
  · obtain ⟨h1, h2, h3, h4⟩ := h
    rw [he]
    unfold selInv
    by_cases hsel : di.selected.arrivalIndex = di.lastArrivalIndex
    · simp only [hsel, if_true]
      refine ⟨?_, ?_, ?_, ?_⟩ <;> dsimp only <;> omega
    · simp only [hsel, if_false]
      have h0 : 0 ≤ di.selected.arrivalIndex := by
        rcases lt_or_le di.lastArrivalIndex 0 with hl | hl
        · omega
        · exact h3 hl
      refine ⟨?_, ?_, ?_, ?_⟩ <;> dsimp only
      · omega
      · omega
      · intro _
        omega
      · intro hp
        have := h4 hp
        omega

/-- The four global moves preserve the selection invariant. -/
theorem selInv_moves (di : GDDataIndex) (h : selInv di) :
    selInv (di.selectFirst).1 ∧ selInv (di.selectLast).1 ∧
    selInv (di.selectNext).1 ∧ selInv (di.selectPrev).1 := by
  obtain ⟨h1, h2, h3, h4⟩ := h
  obtain ⟨hN1, hN2, hN3⟩ := selectNext_spec di
  obtain ⟨hP1, hP2, hP3⟩ := selectPrev_spec di
  obtain ⟨hL1, hL2, hL3⟩ := selectLast_spec di
  refine ⟨?_, ?_, ?_, ?_⟩
  · unfold GDDataIndex.selectFirst selInv
    refine ⟨?_, ?_, ?_, ?_⟩ <;> dsimp only <;> omega
  · by_cases hc : di.selected.arrivalIndex < di.lastArrivalIndex
    · rw [hL2 hc]
      unfold selInv
      refine ⟨?_, ?_, ?_, ?_⟩ <;> dsimp only <;> omega
    · rw [hL3 hc]
      exact ⟨h1, h2, h3, h4⟩
  · cases hb : (di.selectNext).2
    · rw [hN3 hb]
      exact ⟨h1, h2, h3, h4⟩
    · have hc := hN1.mp hb
      rw [hN2 hb]
      unfold selInv
      refine ⟨?_, ?_, ?_, ?_⟩ <;> dsimp only <;> omega
  · cases hb : (di.selectPrev).2
    · rw [hP3 hb]
      exact ⟨h1, h2, h3, h4⟩
    · have hc := hP1.mp hb
      have := h4 hc
      rw [hP2 hb]
      unfold selInv
      refine ⟨?_, ?_, ?_, ?_⟩ <;> dsimp only <;> omega

/-- `currentAnnotationFileLine` only ever returns a file record stored in
the table and one of its line slots. -/
theorem currentAnnotationFileLine_ok (di : GDDataIndex) (name : String) (annIndex : Int)
    (file : GDFileMsgs) (line : GDLineMsgs)
    (h : di.currentAnnotationFileLine name annIndex = .ok (some (file, line))) :
    some file ∈ di.Files ∧ line ∈ file.LinesMsgs := by
  unfold GDDataIndex.currentAnnotationFileLine at h
  split at h
  · exact Option.noConfusion (Except.ok.inj h)
  · split at h
    · exact Except.noConfusion h
    · exact Except.noConfusion h
    · split at h
      · exact Option.noConfusion (Except.ok.inj h)
      · split at h
        · exact Except.noConfusion h
        · next =>
          have hp := Option.some.inj (Except.ok.inj h)
          rw [Prod.mk.injEq] at hp
          obtain ⟨rfl, rfl⟩ := hp
          constructor
          · exact List.getElem?_mem (by assumption)
          · exact List.getElem?_mem (by assumption)

/-- A per-line gesture that reports a change sets the cursor to the
arrival index of an event stored in some line slot of the table. -/
theorem selectCurrent_ok_true (di : GDDataIndex) (name : String) (annIndex : Int)
    (typ : TASelAnnType) (di' : GDDataIndex)
    (hres : di.selectCurrent name annIndex typ = .ok (di', true)) :
    ∃ file line u, some file ∈ di.Files ∧ line ∈ file.LinesMsgs ∧ u ∈ line.lineMsgs ∧
      di' = { di with selected := { di.selected with arrivalIndex := u.arrivalIndex } } := by
  unfold GDDataIndex.selectCurrent at hres
  split at hres
  · exact Except.noConfusion hres
  · have h := Except.ok.inj hres
    rw [Prod.mk.injEq] at h
    exact Bool.noConfusion h.2
  · next file line heq =>
    obtain ⟨hmf, hml⟩ := currentAnnotationFileLine_ok di name annIndex file line heq
    cases typ <;> dsimp only at hres <;> (repeat' split at hres) <;>
      first
        | exact Except.noConfusion hres
        | (have h := Except.ok.inj hres
           rw [Prod.mk.injEq] at h
           exact Bool.noConfusion h.2)
        | (rename_i u hu
           have h := Except.ok.inj hres
           rw [Prod.mk.injEq] at h
           exact ⟨file, line, u, hmf, hml, List.getElem?_mem hu, h.1.symm⟩)

/-- A per-line gesture that reports "no change" indeed left the state
unchanged. -/
theorem selectCurrent_ok_false (di : GDDataIndex) (name : String) (annIndex : Int)
    (typ : TASelAnnType) (di' : GDDataIndex)
    (hres : di.selectCurrent name annIndex typ = .ok (di', false)) : di' = di := by
  unfold GDDataIndex.selectCurrent at hres
  split at hres
  · exact Except.noConfusion hres
  · have h := Except.ok.inj hres
    rw [Prod.mk.injEq] at h
    exact h.1.symm
  · next file line heq =>
    cases typ <;> dsimp only at hres <;> (repeat' split at hres) <;>
      first
        | exact Except.noConfusion hres
        | (have h := Except.ok.inj hres
           rw [Prod.mk.injEq] at h
           exact Bool.noConfusion h.2)
        | (have h := Except.ok.inj hres
           rw [Prod.mk.injEq] at h
           exact h.1.symm)

/-- Per-line gestures preserve the selection invariant (the cursor is set
to a stored event's arrival index, which the slot invariant bounds). -/
theorem selInv_selectCurrent (di : GDDataIndex) (name : String) (annIndex : Int)
    (typ : TASelAnnType) (di' : GDDataIndex) (moved : Bool)
    (h : selInv di) (hwf : slotsWF di)
    (hres : di.selectCurrent name annIndex typ = .ok (di', moved)) : selInv di' := by
  cases moved with
  | false =>
    rw [selectCurrent_ok_false di name annIndex typ di' hres]
    exact h
  | true =>
    obtain ⟨file, line, u, hmf, hml, hmu, he⟩ :=
      selectCurrent_ok_true di name annIndex typ di' hres
    have hb := (fileSlotsWF_some _ _ (hwf _ hmf) line hml).2 u hmu
    obtain ⟨h1, h2, h3, h4⟩ := h
    subst he
    unfold selInv
    refine ⟨?_, ?_, ?_, ?_⟩ <;> dsimp only <;> omega

/-- C8 counterexample: cancellation with the throttle timer unarmed (no
refresh pending) terminates the loop without any final refresh, against
the claimed "one final refresh regardless of the timer state". -/
theorem C8_counterexample :
    (loopStep ⟨NewGDDataIndex false, [], false, 0⟩ .cancel).2 = true ∧
    (loopStep ⟨NewGDDataIndex false, [], false, 0⟩ .cancel).1.refreshCount = 0 := by
  decide

/-- C8 amended: on termination (cancellation or closure) the loop
refreshes immediately iff a throttled refresh was pending. -/
theorem C8_final_refresh : C8Concl := by
  intro s
  unfold loopStep finalUpdate
  by_cases h : s.updatecArmed <;> simp [h]

/-- A message step of the loop: handle, log any error, arm the timer,
and never return. -/
theorem loopStep_msg (s : LoopState) (m : Msg) :
    loopStep s (.msg m) =
      ({ di := (handleMsg s.di m).1,
         output := s.output ++
           (match (handleMsg s.di m).2 with | some e => [e] | none => []),
         updatecArmed := true, refreshCount := s.refreshCount }, false) := by
  unfold loopStep
  cases h : (handleMsg s.di m).2 <;> simp [h]

/-- Over a pure message schedule the loop ingests everything, agreeing
with the plain fold. -/
theorem clientMsgsLoop_msgs : ∀ (ms : List Msg) (s : LoopState),
    (clientMsgsLoop s (ms.map .msg)).di = (ingestAll s.di ms).1 ∧
    (clientMsgsLoop s (ms.map .msg)).output = s.output ++ (ingestAll s.di ms).2
  | [], s => by
    constructor
    · rfl
    · simp [clientMsgsLoop, ingestAll]
  | m :: ms, s => by
    simp only [List.map_cons]
    rw [clientMsgsLoop, loopStep_msg]
    dsimp only
    obtain ⟨ih1, ih2⟩ := clientMsgsLoop_msgs ms
      ({ di := (handleMsg s.di m).1,
         output := s.output ++
           (match (handleMsg s.di m).2 with | some e => [e] | none => []),
         updatecArmed := true, refreshCount := s.refreshCount })
    constructor
    · rw [ih1]
      rfl
    · rw [ih2]
      cases h : (handleMsg s.di m).2 <;>
        simp [ingestAll, h, List.append_assoc]

/-- C4 counterexample: on `c4Sched` the metadata `IndexError` is written
to the output stream and the run continues — the following valid metadata
and event are still processed (the counter reaches 0) before closure. -/
theorem C4_counterexample :
    (clientMsgsLoop ⟨NewGDDataIndex false, [], false, 0⟩ c4Sched).output =
      [.badFileIndexAtInit 5 1] ∧
    (clientMsgsLoop ⟨NewGDDataIndex false, [], false, 0⟩ c4Sched).di.lastArrivalIndex = 0 ∧
    (clientMsgsLoop ⟨NewGDDataIndex false, [], false, 0⟩ c4Sched).refreshCount = 1 := by
  decide

/-- C4 amended: metadata and event `IndexError`s alike are logged to the
output stream and the loop continues; it returns only on cancellation or
closure. -/
theorem C4_error_handling (s : LoopState) (ms : List Msg) : C4Concl s ms := by
  refine ⟨?_, (clientMsgsLoop_msgs ms s).1, (clientMsgsLoop_msgs ms s).2⟩
  intro ev
  cases ev with
  | cancel => simp [loopStep]
  | closed => simp [loopStep]
  | timerFire =>
    unfold loopStep
    constructor
    · intro h
      by_cases hb : s.updatecArmed <;> simp [hb] at h
    · intro h
      rcases h with h | h <;> exact LoopEvent.noConfusion h
  | msg m =>
    rw [loopStep_msg]
    simp

/-- C9: a refresh of a file whose content drifted from the recorded
size/hash marks it edited and pushes "no annotations" (never a live entry
list); a reveal whose selection lies in an edited file issues the warning
instead of opening the recorded offset. -/
theorem C9_edited_files (di : GDDataIndex) (info : ERowInfo) (findex : Nat)
    (afd : AnnotatorFileData)
    (h1 : di.FilesIndex info.name = some findex)
    (h2 : ∃ file, di.Files[findex]? = some (some file))
    (h3 : di.Afds[findex]? = some afd)
    (h4 : info.equalToBytesHash afd.FileSize afd.FileHash = false) :
    C9Concl di info := by
  obtain ⟨file, hfile⟩ := h2
  constructor
  · have hrun : ∃ di', di.updateInfoUI info = .ok (di',
        [UIAction.annRowState info.name true, UIAction.annEditedRowState info.name true]
          ++ clearDrawerAnn info) := by
      simp only [GDDataIndex.updateInfoUI, h1, hfile, h3, h4]
      exact ⟨_, rfl⟩
    obtain ⟨di', hrun⟩ := hrun
    refine ⟨di', _, hrun, ?_, ?_, ?_⟩
    · simp [clearDrawerAnn]
    · intro er her
      simp only [clearDrawerAnn, List.mem_append, List.mem_cons, List.mem_map]
      right
      exact ⟨er, her, rfl⟩
    · intro a ha er sel es
      simp only [clearDrawerAnn, List.mem_append, List.mem_cons, List.mem_map,
        List.not_mem_nil, or_false] at ha
      rcases ha with (ha | ha) | ⟨x, hxm, hx⟩
      · rw [ha]
        intro hcontra
        exact UIAction.noConfusion hcontra
      · rw [ha]
        intro hcontra
        exact UIAction.noConfusion hcontra
      · rw [← hx]
        intro hcontra
        have := UIAction.setAnns.inj hcontra
        exact Bool.noConfusion this.2.1
  · intro di2 afd2 hge hed hafd
    unfold GDDataIndex.showSelectedLine
    rw [if_neg (by omega), hafd]
    simp [hed]

/-- Witness for C9: the demo index (three events, selection resolved into
file 0) refreshed against a view whose hash drifted from `[7]` to `[8]`. -/
theorem C9_edited_files_witness :
    (demoDi3.FilesIndex demoInfoBad.name = some 0 ∧
      demoDi3.Afds[(0 : Nat)]? = some ⟨0, "f.go", 100, [7], 3⟩ ∧
      demoInfoBad.equalToBytesHash (100 : Int) [7] = false) ∧
    C9Concl demoDi3 demoInfoBad :=
  ⟨⟨by decide, by decide, by decide⟩,
    C9_edited_files demoDi3 demoInfoBad 0 ⟨0, "f.go", 100, [7], 3⟩ (by decide)
      ⟨demoFile, by decide⟩ (by decide) (by decide)⟩

/-- C10 (code bug): with one declared line slot and no events received,
the stored local-position cache still holds its initial 0; a Current
gesture on that line reads local position 0 of the empty slot — an index
out of range (a Go run-time panic), not a no-op — while CurrentPrev and
CurrentNext are correctly guarded no-ops. -/
theorem C10_empty_slot_out_of_range :
    (((NewGDDataIndex false).handleFilesDataMsg [⟨0, "g.go", 10, [1], 1⟩]).2 = none) ∧
    ((((NewGDDataIndex false).handleFilesDataMsg [⟨0, "g.go", 10, [1], 1⟩]).1.selectCurrent
        "g.go" 0 .current) = .error .sliceOutOfRange) ∧
    ((((NewGDDataIndex false).handleFilesDataMsg [⟨0, "g.go", 10, [1], 1⟩]).1.selectCurrent
        "g.go" 0 .currentPrev) =
      .ok (((NewGDDataIndex false).handleFilesDataMsg [⟨0, "g.go", 10, [1], 1⟩]).1, false)) ∧
    ((((NewGDDataIndex false).handleFilesDataMsg [⟨0, "g.go", 10, [1], 1⟩]).1.selectCurrent
        "g.go" 0 .currentNext) =
      .ok (((NewGDDataIndex false).handleFilesDataMsg [⟨0, "g.go", 10, [1], 1⟩]).1, false)) :=
  ⟨rfl, rfl, rfl, rfl⟩
